import Mathlib

/-!
The amocrm client: endpoints, authorization entry points and the leads repository.

A shallow embedding of `endpoints.go`, `client.go`, `repository_leads.go` and
`repository_pipelines.go`, with the properties proved about it.

Go strings are byte sequences, so they are embedded as lists of bytes.  The
pieces of the Go standard library the sources call (`fmt.Sprintf`,
`strings.Replace`, `url.Values.Encode`, `url.Parse`, `sort.SliceStable`) are
embedded next to the functions that use them.  Declarations of the package
that the embedded functions use but whose source is not part of the four
files (`apiVersion`, `eventsV2endpoint`, the two mode constants, the methods
of `*api`) are parameters of the embedding; the types `Token`, `TokenStorage`
and the struct `api` with its constructor follow the specification.
-/

namespace Amocrm

/-! ## Strings -/

/-- A Go `byte`. -/
abbrev Byte := Fin 256

/-- A Go `string`: an immutable sequence of bytes. -/
abbrev Str := List Byte

/-- The byte of an ASCII character literal. -/
def ch (c : Char) : Byte := Fin.ofNat c.toNat

/-- The bytes of an ASCII string literal. -/
def lit (s : String) : Str := s.toList.map ch

/-- A byte is an ASCII decimal digit. -/
def isDigit (c : Byte) : Prop := ch '0' ≤ c ∧ c ≤ ch '9'

/-! ## `fmt.Sprintf` -/

/-- The ASCII digit of `d % 10`. -/
def digit (d : Nat) : Byte := Fin.ofNat (48 + d % 10)

/-- Decimal digits of `n`, most significant first, in front of `acc`;
`fuel` bounds the number of digits produced. -/
def fmtNatAux : Nat → Nat → Str → Str
  | 0, _, acc => acc
  | fuel + 1, n, acc =>
    if n / 10 = 0 then digit n :: acc else fmtNatAux fuel (n / 10) (digit n :: acc)

/-- Decimal representation of a natural number (`0` is `"0"`). -/
def fmtNat (n : Nat) : Str := fmtNatAux (n + 1) n []

/-- Decimal representation of an integer, as the verb `%d` prints it. -/
def fmtInt : Int → Str
  | Int.ofNat n => fmtNat n
  | Int.negSucc n => ch '-' :: fmtNat (n + 1)

/-- An operand of `fmt.Sprintf`: the two operand types the sources pass. -/
inductive Arg where
  | str (s : Str)
  | int (n : Int)

/-- Go type name and `%v` rendering of an operand, as used in diagnostics. -/
def Arg.describe : Arg → Str
  | Arg.str s => lit "string=" ++ s
  | Arg.int n => lit "int=" ++ fmtInt n

/-- One verb applied to one operand: `%s` and `%v` print a string as it is,
`%d` and `%v` print an integer in decimal; every other pairing prints Go's
bad-verb diagnostic `%!verb(type=value)`. -/
def fmtVerb (verb : Byte) (a : Arg) : Str :=
  match a with
  | Arg.str s =>
    if verb = ch 's' ∨ verb = ch 'v' then s
    else lit "%!" ++ [verb] ++ lit "(" ++ a.describe ++ lit ")"
  | Arg.int n =>
    if verb = ch 'd' ∨ verb = ch 'v' then fmtInt n
    else lit "%!" ++ [verb] ++ lit "(" ++ a.describe ++ lit ")"

/-- The `%!(EXTRA ...)` suffix for operands left over after the format. -/
def fmtExtra : List Arg → Str
  | [] => []
  | a :: as =>
    lit "%!(EXTRA " ++ a.describe ++ (as.map (fun b => lit ", " ++ b.describe)).flatten ++ lit ")"

/-- The function `fmt.Sprintf` for formats made of literal text, `%%` and
one-letter verbs without flags, width or precision. -/
def Sprintf : Str → List Arg → Str
  | [], args => fmtExtra args
  | [c], args => if c = ch '%' then lit "%!(NOVERB)" ++ fmtExtra args else c :: fmtExtra args
  | c :: v :: rest, args =>
    if c = ch '%' then
      if v = ch '%' then ch '%' :: Sprintf rest args
      else
        match args with
        | [] => lit "%!" ++ [v] ++ lit "(MISSING)" ++ Sprintf rest []
        | a :: as => fmtVerb v a ++ Sprintf rest as
    else c :: Sprintf (v :: rest) args

/-! ## `strings.Index`, `strings.Count`, `strings.Replace` -/

/-- The function `strings.Index`: position of the first occurrence of `sep`
in `s`, `none` for Go's `-1`. -/
def Index : Str → Str → Option Nat
  | [], sep => if sep = [] then some 0 else none
  | c :: cs, sep =>
    if sep.isPrefixOf (c :: cs) then some 0 else (Index cs sep).map (· + 1)

/-- Number of non-overlapping occurrences of a non-empty `sep`, scanning at
most `fuel` occurrences. -/
def countAux : Nat → Str → Str → Nat
  | 0, _, _ => 0
  | fuel + 1, s, sep =>
    match Index s sep with
    | none => 0
    | some j => 1 + countAux fuel (s.drop (j + sep.length)) sep

/-- The function `strings.Count` for a non-empty `sep`. -/
def Count (s sep : Str) : Nat := countAux s.length s sep

/-- The replacement loop of `strings.Replace`: the first `k` occurrences of
`old`, left to right. -/
def replaceLoop : Nat → Str → Str → Str → Str
  | 0, s, _, _ => s
  | k + 1, s, old, new =>
    match Index s old with
    | none => s
    | some j => s.take j ++ new ++ replaceLoop k (s.drop (j + old.length)) old new

/-- The function `strings.Replace` for a non-empty `old`: `n < 0` replaces
every occurrence. -/
def Replace (s old new : Str) (n : Int) : Str :=
  if old = new ∨ n = 0 then s
  else
    let m := Count s old
    if m = 0 then s
    else replaceLoop (if n < 0 ∨ (m : Int) < n then m else n.toNat) s old new

/-! ## `endpoints.go` -/

/-- The Go type `endpoint` is a string. -/
abbrev endpoint := Str

/-- The method `endpoint.path`.  The constants `apiVersion` and
`eventsV2endpoint` are declared outside the given sources. -/
def endpoint.path (apiVersion : Int) (eventsV2endpoint : endpoint) (e : endpoint) : Str :=
  if e = eventsV2endpoint then
    Sprintf (lit "/api/v2/%s/") [Arg.str e]
  else
    Sprintf (lit "/api/v%d/%s") [Arg.int apiVersion, Arg.str e]

/-- The constant `accountsEndpoint`. -/
def accountsEndpoint : endpoint := lit "accounts"

/-- The constant `leadsEndpoint`. -/
def leadsEndpoint : endpoint := lit "leads"

/-- The constant `leadEndpoint`, the template `leads/{id}`. -/
def leadEndpoint : endpoint := lit "leads/\x7bid\x7d"

/-- The constant `pipelinesEndpoint`. -/
def pipelinesEndpoint : endpoint := lit "leads/pipelines"

/-- The constant `contactsEndpoint`. -/
def contactsEndpoint : endpoint := lit "contacts"

/-- The constant `contactEndpoint`, the template `contacts/{id}`. -/
def contactEndpoint : endpoint := lit "contacts/\x7bid\x7d"

/-- The function `leadEndPoint`. -/
def leadEndPoint (leadId : Int) : endpoint :=
  Replace leadEndpoint (lit "\x7bid\x7d") (Sprintf (lit "%d") [Arg.int leadId]) 1

/-- The function `contactEndPoint`. -/
def contactEndPoint (contactId : Int) : endpoint :=
  Replace contactEndpoint (lit "\x7bid\x7d") (Sprintf (lit "%d") [Arg.int contactId]) 1


/-! ## `sort.SliceStable` -/

/-- One step of the insertion sort behind `sort.SliceStable`: the new element
`x` is swapped towards the front while `less x y` holds for its predecessor
`y`.  The already sorted prefix is given last element first. -/
def insertBack {α : Type} (less : α → α → Bool) (x : α) : List α → List α
  | [] => [x]
  | y :: ys => if less x y then y :: insertBack less x ys else x :: y :: ys

/-- Insertion of the elements of a list, left to right, into the reversed
sorted prefix `acc`. -/
def sortLoop {α : Type} (less : α → α → Bool) : List α → List α → List α
  | [], acc => acc.reverse
  | x :: xs, acc => sortLoop less xs (insertBack less x acc)

/-- The function `sort.SliceStable(x, less)`.  Go sorts blocks of 20 elements by this
insertion and merges the blocks; with a `less` that compares integer keys every
stable sort returns the same slice (`SliceStable_unique` below), so the
insertion gives the result for every length. -/
def SliceStable {α : Type} (less : α → α → Bool) (x : List α) : List α :=
  sortLoop less x []
/-! ## Errors, tokens and the methods of `*api` -/

/-- Go `error` values that the embedded functions create, compare or pass on. -/
inductive Err where
  /-- The sentinel `io.EOF`. -/
  | EOF
  /-- The package variable `ErrNoRecord`. -/
  | ErrNoRecord
  /-- The value `oauth2Err(msg)`. -/
  | oauth2Err (msg : Str)
  /-- The value `errors.New(msg)`. -/
  | errorsNew (msg : Str)
  /-- The value `fmt.Errorf(format, err)` where `format` ends in `%w`. -/
  | Errorf (format : Str) (cause : Err)
  /-- The value `url.EscapeError(s)`. -/
  | EscapeError (s : Str)
  /-- The value `url.InvalidHostError(s)`. -/
  | InvalidHostError (s : Str)
  /-- The value `fmt.Errorf("invalid port %q after host", colonPort)`. -/
  | invalidPort (colonPort : Str)
  /-- The value `&url.Error{Op: op, URL: url, Err: cause}`. -/
  | urlError (op : Str) (url : Str) (cause : Err)
  /-- Any other error (storage, transport, decoding), told apart by a code. -/
  | other (code : Nat)
  deriving DecidableEq

/-- Modelled from the spec: the type `Token`, declared outside the given sources
(section 3: access token, refresh token, token type, absolute expiry). -/
structure Token where
  access_token : Str
  refresh_token : Str
  token_type : Str
  expires_at : Int
  deriving DecidableEq

/-- The Go type `url.Values` (`map[string][]string`), as an association list. -/
abbrev Values := List (Str × List Str)

/-- Modelled from the spec: the grants of the token endpoint (section 4.1); the
constant `authorizationCodeGrant` is declared outside the given sources. -/
inductive grantType where
  | authorizationCodeGrant
  | refreshTokenGrant
  deriving DecidableEq

/-- An HTTP response as the repositories see it: a value handed from `do` to `read`. -/
structure Response where
  StatusCode : Int
  Body : Str
  deriving DecidableEq

/-! ## `net/url`

The functions of package `net/url` behind `url.Values.Encode`, `url.Parse` and
`(*url.URL).Query`, after the Go sources of releases 1.17 to 1.22.  The field
`OmitHost` of `url.URL` is left out. -/

/-- The escaping modes of `net/url`. -/
inductive encoding where
  | encodePath
  | encodePathSegment
  | encodeHost
  | encodeZone
  | encodeUserPassword
  | encodeQueryComponent
  | encodeFragment
  deriving DecidableEq

/-- An ASCII letter. -/
def isAlpha (c : Byte) : Bool :=
  (decide (ch 'a' ≤ c) && decide (c ≤ ch 'z')) || (decide (ch 'A' ≤ c) && decide (c ≤ ch 'Z'))

/-- An ASCII letter or digit. -/
def isAlnum (c : Byte) : Bool :=
  isAlpha c || (decide (ch '0' ≤ c) && decide (c ≤ ch '9'))

/-- The function `ishex`. -/
def ishex (c : Byte) : Bool :=
  (decide (ch '0' ≤ c) && decide (c ≤ ch '9')) ||
  (decide (ch 'a' ≤ c) && decide (c ≤ ch 'f')) ||
  (decide (ch 'A' ≤ c) && decide (c ≤ ch 'F'))

/-- The function `unhex`. -/
def unhex (c : Byte) : Byte :=
  if ch '0' ≤ c ∧ c ≤ ch '9' then c - ch '0'
  else if ch 'a' ≤ c ∧ c ≤ ch 'f' then c - ch 'a' + 10
  else if ch 'A' ≤ c ∧ c ≤ ch 'F' then c - ch 'A' + 10
  else 0

/-- The table `upperhex`, indexed by a nibble. -/
def upperhex (i : Byte) : Byte := (lit "0123456789ABCDEF").getD i.val 0

/-- The function `shouldEscape`. -/
def shouldEscape (c : Byte) (mode : encoding) : Bool :=
  if isAlnum c then false
  else if (mode = encoding.encodeHost ∨ mode = encoding.encodeZone) ∧
      (lit "!$&\x27()*+,;=:[]<>\x22").contains c then false
  else if (lit "-_.~").contains c then false
  else if (lit "$&+,/:;=?@").contains c then
    match mode with
    | encoding.encodePath => c == ch '?'
    | encoding.encodePathSegment => c == ch '/' || c == ch ';' || c == ch ',' || c == ch '?'
    | encoding.encodeUserPassword => c == ch '@' || c == ch '/' || c == ch '?' || c == ch ':'
    | encoding.encodeQueryComponent => true
    | encoding.encodeFragment => false
    | _ => true
  else if mode = encoding.encodeFragment ∧ (lit "!()*").contains c then false
  else true

/-- The bytes `escape` writes for one byte of its input. -/
def escapeByte (mode : encoding) (c : Byte) : Str :=
  if c = ch ' ' ∧ mode = encoding.encodeQueryComponent then [ch '+']
  else if shouldEscape c mode then [ch '%', upperhex (c >>> 4), upperhex (c &&& 15)]
  else [c]

/-- The function `escape`: every byte is written as `escapeByte` gives it (the
shortcuts of the Go function for inputs without bytes to escape write the same
bytes). -/
def escape (s : Str) (mode : encoding) : Str :=
  (s.map (escapeByte mode)).flatten

/-- The function `url.QueryEscape`. -/
def QueryEscape (s : Str) : Str := escape s encoding.encodeQueryComponent

/-- The first loop of `unescape`: the count `n` of `%` and the flag `hasPlus`, or
the error for a malformed escape or a byte a host may not hold. -/
def unescapeScan (mode : encoding) : Str → Nat → Bool → Except Err (Nat × Bool)
  | [], n, hasPlus => Except.ok (n, hasPlus)
  | c :: rest, n, hasPlus =>
    if c = ch '%' then
      match rest with
      | h1 :: h2 :: rest2 =>
        if ¬ (ishex h1 = true ∧ ishex h2 = true) then Except.error (Err.EscapeError [c, h1, h2])
        else if mode = encoding.encodeHost ∧ unhex h1 < 8 ∧ [c, h1, h2] ≠ lit "%25" then
          Except.error (Err.EscapeError [c, h1, h2])
        else if mode = encoding.encodeZone ∧ [c, h1, h2] ≠ lit "%25" ∧
            (unhex h1 <<< 4 ||| unhex h2) ≠ ch ' ' ∧
            shouldEscape (unhex h1 <<< 4 ||| unhex h2) encoding.encodeHost = true then
          Except.error (Err.EscapeError [c, h1, h2])
        else unescapeScan mode rest2 (n + 1) hasPlus
      | _ => Except.error (Err.EscapeError (c :: rest))
    else if c = ch '+' then
      unescapeScan mode rest n (decide (mode = encoding.encodeQueryComponent))
    else if (mode = encoding.encodeHost ∨ mode = encoding.encodeZone) ∧ c < 128 ∧
        shouldEscape c encoding.encodeHost = true then
      Except.error (Err.InvalidHostError [c])
    else unescapeScan mode rest n hasPlus

/-- The second loop of `unescape`: the decoded bytes. -/
def unescapeWrite (mode : encoding) : Str → Str
  | [] => []
  | c :: rest =>
    if c = ch '%' then
      match rest with
      | h1 :: h2 :: rest2 => (unhex h1 <<< 4 ||| unhex h2) :: unescapeWrite mode rest2
      | _ => []
    else if c = ch '+' then
      (if mode = encoding.encodeQueryComponent then ch ' ' else ch '+') :: unescapeWrite mode rest
    else c :: unescapeWrite mode rest

/-- The function `unescape`. -/
def unescape (s : Str) (mode : encoding) : Except Err Str :=
  match unescapeScan mode s 0 false with
  | Except.error e => Except.error e
  | Except.ok (n, hasPlus) =>
    if n = 0 ∧ hasPlus = false then Except.ok s else Except.ok (unescapeWrite mode s)

/-- The function `url.QueryUnescape`. -/
def QueryUnescape (s : Str) : Except Err Str := unescape s encoding.encodeQueryComponent

/-- The function `strings.LastIndex`, `none` for Go's `-1`. -/
def LastIndex (s sep : Str) : Option Nat :=
  (Index s.reverse sep.reverse).map (fun i => s.length - i - sep.length)

/-- The function `strings.Contains`. -/
def Contains (s sub : Str) : Bool := (Index s sub).isSome

/-- The function `strings.Cut`. -/
def Cut (s sep : Str) : Str × Str × Bool :=
  match Index s sep with
  | some i => (s.take i, s.drop (i + sep.length), true)
  | none => (s, [], false)

/-- The function `strings.ToLower` on ASCII input. -/
def ToLower (s : Str) : Str :=
  s.map (fun c => if ch 'A' ≤ c ∧ c ≤ ch 'Z' then c + 32 else c)

/-- The literal `url.Values{...}` and the map it holds: the values of a key, `nil`
(the empty list) for an absent key. -/
def Values.index (v : Values) (key : Str) : List Str :=
  match v.lookup key with
  | some vs => vs
  | none => []

/-- The statement `m[key] = append(m[key], value)`. -/
def Values.append (v : Values) (key value : Str) : Values :=
  match v with
  | [] => [(key, [value])]
  | (k, vs) :: rest => if k = key then (k, vs ++ [value]) :: rest else (k, vs) :: Values.append rest key value

/-- The function `sort.Strings`: ascending byte-wise order. -/
def sortStrings (keys : List Str) : List Str :=
  SliceStable (fun a b => decide (a < b)) keys

/-- The inner loop of `Values.Encode`, over the values of one key. -/
def Values.encodeKey (keyEscaped : Str) : List Str → Str → Str
  | [], buf => buf
  | v :: vs, buf =>
    let buf1 := if buf.length > 0 then buf ++ [ch '&'] else buf
    Values.encodeKey keyEscaped vs (buf1 ++ keyEscaped ++ [ch '='] ++ QueryEscape v)

/-- The outer loop of `Values.Encode`, over the sorted keys. -/
def Values.encodeLoop (v : Values) : List Str → Str → Str
  | [], buf => buf
  | k :: keys, buf => Values.encodeLoop v keys (Values.encodeKey (QueryEscape k) (Values.index v k) buf)

/-- The method `url.Values.Encode`. -/
def Values.Encode (v : Values) : Str :=
  if v.length = 0 then []
  else Values.encodeLoop v (sortStrings (v.map Prod.fst)) []

/-- The loop of `parseQuery`; every round removes a part of `query`, so
`fuel` above the length of `query` lets it finish. -/
def parseQueryLoop : Nat → Values → Option Err → Str → Values × Option Err
  | 0, m, err, _ => (m, err)
  | fuel + 1, m, err, query =>
    if query = [] then (m, err)
    else
      let key := (Cut query (lit "&")).1
      let query1 := (Cut query (lit "&")).2.1
      if Contains key (lit ";") then
        parseQueryLoop fuel m (some (Err.errorsNew (lit "invalid semicolon separator in query"))) query1
      else if key = [] then parseQueryLoop fuel m err query1
      else
        let value := (Cut key (lit "=")).2.1
        match QueryUnescape (Cut key (lit "=")).1 with
        | Except.error err1 => parseQueryLoop fuel m (if err = none then some err1 else err) query1
        | Except.ok key1 =>
          match QueryUnescape value with
          | Except.error err1 => parseQueryLoop fuel m (if err = none then some err1 else err) query1
          | Except.ok value1 => parseQueryLoop fuel (Values.append m key1 value1) err query1

/-- The function `url.ParseQuery`. -/
def ParseQuery (query : Str) : Values × Option Err :=
  parseQueryLoop (query.length + 1) [] none query

/-- A byte that `QueryEscape` can write: a letter, a digit or one of `-_.~%+`. -/
def querySafe (b : Byte) : Bool := isAlnum b || (lit "-_.~%+").contains b

/-- What the first loop of `unescape` adds to its count for the escaped form of
the byte `c`: one for a byte written as `%XX`. -/
def escCount (c : Byte) : Nat :=
  if c ≠ ch ' ' ∧ shouldEscape c encoding.encodeQueryComponent = true then 1 else 0

/-- The byte is a space, which `QueryEscape` writes as `+`. -/
def escPlus (c : Byte) : Bool := decide (c = ch ' ')

/-- The type `url.Userinfo`. -/
structure Userinfo where
  username : Str
  password : Str
  passwordSet : Bool
  deriving DecidableEq

/-- The type `url.URL`. -/
structure URL where
  Scheme : Str
  Opaque : Str
  User : Option Userinfo
  Host : Str
  Path : Str
  RawPath : Str
  ForceQuery : Bool
  RawQuery : Str
  Fragment : Str
  RawFragment : Str
  deriving DecidableEq

/-- The zero value `URL{}`. -/
def URL.zero : URL :=
  { Scheme := [], Opaque := [], User := none, Host := [], Path := [], RawPath := [],
    ForceQuery := false, RawQuery := [], Fragment := [], RawFragment := [] }

/-- The function `stringContainsCTLByte`. -/
def stringContainsCTLByte (s : Str) : Bool :=
  s.any (fun b => decide (b < ch ' ') || decide (b = 127))

/-- The loop of `getScheme`; `i` is the position of the first byte of the
second argument in `rawURL`. -/
def getSchemeLoop (rawURL : Str) : Nat → Str → Except Err (Str × Str)
  | _, [] => Except.ok ([], rawURL)
  | i, c :: cs =>
    if isAlpha c then getSchemeLoop rawURL (i + 1) cs
    else if (ch '0' ≤ c ∧ c ≤ ch '9') ∨ c = ch '+' ∨ c = ch '-' ∨ c = ch '.' then
      if i = 0 then Except.ok ([], rawURL) else getSchemeLoop rawURL (i + 1) cs
    else if c = ch ':' then
      if i = 0 then Except.error (Err.errorsNew (lit "missing protocol scheme"))
      else Except.ok (rawURL.take i, rawURL.drop (i + 1))
    else Except.ok ([], rawURL)

/-- The function `getScheme`: the scheme and the rest of the URL. -/
def getScheme (rawURL : Str) : Except Err (Str × Str) := getSchemeLoop rawURL 0 rawURL

/-- The function `validOptionalPort`. -/
def validOptionalPort (port : Str) : Bool :=
  match port with
  | [] => true
  | c :: digits => decide (c = ch ':') && digits.all (fun b => decide (ch '0' ≤ b) && decide (b ≤ ch '9'))

/-- The function `validUserinfo`; a byte outside ASCII is part of a rune that is
not in the allowed set. -/
def validUserinfo (s : Str) : Bool :=
  s.all (fun r => isAlnum r || (lit "-._:~!$&\x27()*+,;=%@").contains r)

/-- The function `parseHost`. -/
def parseHost (host : Str) : Except Err Str :=
  if (lit "[").isPrefixOf host then
    match LastIndex host (lit "]") with
    | none => Except.error (Err.errorsNew (lit "missing \x27]\x27 in host"))
    | some i =>
      let colonPort := host.drop (i + 1)
      if ¬ validOptionalPort colonPort = true then Except.error (Err.invalidPort colonPort)
      else
        match Index (host.take i) (lit "%25") with
        | some zone =>
          match unescape (host.take zone) encoding.encodeHost with
          | Except.error e => Except.error e
          | Except.ok host1 =>
            match unescape ((host.take i).drop zone) encoding.encodeZone with
            | Except.error e => Except.error e
            | Except.ok host2 =>
              match unescape (host.drop i) encoding.encodeHost with
              | Except.error e => Except.error e
              | Except.ok host3 => Except.ok (host1 ++ host2 ++ host3)
        | none => unescape host encoding.encodeHost
  else
    match LastIndex host (lit ":") with
    | some i =>
      let colonPort := host.drop i
      if ¬ validOptionalPort colonPort = true then Except.error (Err.invalidPort colonPort)
      else unescape host encoding.encodeHost
    | none => unescape host encoding.encodeHost

/-- The function `parseAuthority`: the user information and the host. -/
def parseAuthority (authority : Str) : Except Err (Option Userinfo × Str) :=
  match LastIndex authority (lit "@") with
  | none =>
    match parseHost authority with
    | Except.error e => Except.error e
    | Except.ok host => Except.ok (none, host)
  | some i =>
    match parseHost (authority.drop (i + 1)) with
    | Except.error e => Except.error e
    | Except.ok host =>
      let userinfo := authority.take i
      if ¬ validUserinfo userinfo = true then
        Except.error (Err.errorsNew (lit "net/url: invalid userinfo"))
      else if ¬ Contains userinfo (lit ":") = true then
        match unescape userinfo encoding.encodeUserPassword with
        | Except.error e => Except.error e
        | Except.ok u =>
          Except.ok (some { username := u, password := [], passwordSet := false }, host)
      else
        match unescape (Cut userinfo (lit ":")).1 encoding.encodeUserPassword with
        | Except.error e => Except.error e
        | Except.ok username =>
          match unescape (Cut userinfo (lit ":")).2.1 encoding.encodeUserPassword with
          | Except.error e => Except.error e
          | Except.ok password =>
            Except.ok (some { username := username, password := password, passwordSet := true },
              host)

/-- The method `(*URL).setPath`. -/
def URL.setPath (u : URL) (p : Str) : Except Err URL :=
  match unescape p encoding.encodePath with
  | Except.error e => Except.error e
  | Except.ok path =>
    if p = escape path encoding.encodePath then Except.ok { u with Path := path, RawPath := [] }
    else Except.ok { u with Path := path, RawPath := p }

/-- The method `(*URL).setFragment`. -/
def URL.setFragment (u : URL) (f : Str) : Except Err URL :=
  match unescape f encoding.encodeFragment with
  | Except.error e => Except.error e
  | Except.ok frag =>
    if f = escape frag encoding.encodeFragment then
      Except.ok { u with Fragment := frag, RawFragment := [] }
    else Except.ok { u with Fragment := frag, RawFragment := f }

/-- The function `parse(rawURL, viaRequest)` with `viaRequest` false, as
`url.Parse` calls it. -/
def parse (rawURL : Str) : Except Err URL :=
  if stringContainsCTLByte rawURL then
    Except.error (Err.errorsNew (lit "net/url: invalid control character in URL"))
  else if rawURL = lit "*" then Except.ok { URL.zero with Path := lit "*" }
  else
    match getScheme rawURL with
    | Except.error e => Except.error e
    | Except.ok (scheme, rest0) =>
      let url0 : URL := { URL.zero with Scheme := ToLower scheme }
      let forceQuery : Bool := (lit "?").isSuffixOf rest0 && decide (Count rest0 (lit "?") = 1)
      let rest : Str := if forceQuery then rest0.take (rest0.length - 1) else (Cut rest0 (lit "?")).1
      let url1 : URL :=
        if forceQuery then { url0 with ForceQuery := true }
        else { url0 with RawQuery := (Cut rest0 (lit "?")).2.1 }
      if ¬ (lit "/").isPrefixOf rest = true ∧ url1.Scheme ≠ [] then
        Except.ok { url1 with Opaque := rest }
      else if ¬ (lit "/").isPrefixOf rest = true ∧
          Contains (Cut rest (lit "/")).1 (lit ":") = true then
        Except.error (Err.errorsNew (lit "first path segment in URL cannot contain colon"))
      else if (url1.Scheme ≠ [] ∨ ¬ (lit "///").isPrefixOf rest = true) ∧
          (lit "//").isPrefixOf rest = true then
        let authority0 := rest.drop 2
        let authority := match Index authority0 (lit "/") with
          | some i => authority0.take i
          | none => authority0
        let rest1 := match Index authority0 (lit "/") with
          | some i => authority0.drop i
          | none => []
        match parseAuthority authority with
        | Except.error e => Except.error e
        | Except.ok (user, host) => URL.setPath { url1 with User := user, Host := host } rest1
      else URL.setPath url1 rest

/-- The part of `parse` that follows the split of the query, as a function of the
URL built so far and of `rest` (`parse_afterQuery` below shows that `parse` is
this function after its first part). -/
def parseAfterQuery (url1 : URL) (rest : Str) : Except Err URL :=
  if ¬ (lit "/").isPrefixOf rest = true ∧ url1.Scheme ≠ [] then
    Except.ok { url1 with Opaque := rest }
  else if ¬ (lit "/").isPrefixOf rest = true ∧
      Contains (Cut rest (lit "/")).1 (lit ":") = true then
    Except.error (Err.errorsNew (lit "first path segment in URL cannot contain colon"))
  else if (url1.Scheme ≠ [] ∨ ¬ (lit "///").isPrefixOf rest = true) ∧
      (lit "//").isPrefixOf rest = true then
    let authority0 := rest.drop 2
    let authority := match Index authority0 (lit "/") with
      | some i => authority0.take i
      | none => authority0
    let rest1 := match Index authority0 (lit "/") with
      | some i => authority0.drop i
      | none => []
    match parseAuthority authority with
    | Except.error e => Except.error e
    | Except.ok (user, host) => URL.setPath { url1 with User := user, Host := host } rest1
  else URL.setPath url1 rest

/-- The function `url.Parse`. -/
def Parse (rawURL : Str) : Except Err URL :=
  let u := (Cut rawURL (lit "#")).1
  let frag := (Cut rawURL (lit "#")).2.1
  match parse u with
  | Except.error err => Except.error (Err.urlError (lit "parse") u err)
  | Except.ok url =>
    if frag = [] then Except.ok url
    else
      match URL.setFragment url frag with
      | Except.error err => Except.error (Err.urlError (lit "parse") rawURL err)
      | Except.ok url1 => Except.ok url1

/-- The method `(*URL).Query`: the parsed query, errors dropped. -/
def URL.Query (u : URL) : Values := (ParseQuery u.RawQuery).1

/-! ## Entities of `repository_leads.go` and `repository_pipelines.go` -/

/-- A value of Go type `interface{}` as `encoding/json` produces it: `nil`, a
`bool`, a `float64` (carried as its bit pattern), a `string`, a
`[]interface{}` or a `map[string]interface{}`. -/
inductive Iface where
  | nil
  | bool (b : Bool)
  | float64 (bits : Nat)
  | string (s : Str)
  | slice (xs : List Iface)
  | map (kvs : List (Str × Iface))

/-- The type `FieldValues` (`map[string]interface{}`), declared outside the
given sources, as an association list. -/
abbrev FieldValues := List (Str × Iface)

/-- Indexing a map: `m[key]`, `nil` when the key is absent. -/
def FieldValues.index (m : FieldValues) (key : Str) : Iface :=
  match m.lookup key with
  | some v => v
  | none => Iface.nil

/-- The comparison `x == s` of an interface value with a string: true when the
dynamic type of `x` is `string` and the strings are equal. -/
def Iface.eqString (x : Iface) (s : Str) : Bool :=
  match x with
  | Iface.string t => decide (t = s)
  | _ => false

/-- The struct `LeadContactEmbedded`. -/
structure LeadContactEmbedded where
  Id : Int
  IsMain : Bool

/-- The struct `LeadEmbedded`. -/
structure LeadEmbedded where
  Tags : List FieldValues
  Contacts : List LeadContactEmbedded
  Companies : List FieldValues

/-- The struct `Lead`; the pointer `Embedded` is an option. -/
structure Lead where
  Id : Int
  Name : Str
  Price : Int
  StatusId : Int
  PipelineId : Int
  CreatedBy : Int
  UpdatedBy : Int
  ClosedAt : Int
  CreatedAt : Int
  UpdatedAt : Int
  LossReasonId : Int
  ResponsibleUserId : Int
  CustomFieldsValues : List FieldValues
  Embedded : Option LeadEmbedded

/-- The zero value `Lead{}`. -/
def Lead.zero : Lead :=
  { Id := 0, Name := [], Price := 0, StatusId := 0, PipelineId := 0, CreatedBy := 0,
    UpdatedBy := 0, ClosedAt := 0, CreatedAt := 0, UpdatedAt := 0, LossReasonId := 0,
    ResponsibleUserId := 0, CustomFieldsValues := [], Embedded := none }

/-- The inner loop of `GetCustomField`, `for _, value := range t`: its body ends
in `break`, so only the first element is visited.  The verb `%v` applied to
an interface value is the parameter `sprintV`. -/
def GetCustomField.firstValue (sprintV : Iface → Str) (t : List Iface) (stringValue : Str) : Str :=
  match t with
  | [] => stringValue
  | value :: _ =>
    match value with
    | Iface.map t2 => sprintV (FieldValues.index t2 (lit "value"))
    | _ => stringValue

/-- The outer loop of `GetCustomField`, `for _, field := range fields`. -/
def GetCustomField.loop (sprintV : Iface → Str) (fieldName : Str) : List FieldValues → Str × Bool
  | [] => ([], false)
  | field :: fields =>
    let values := field.index (lit "values")
    let stringValue : Str :=
      match values with
      | Iface.slice t => GetCustomField.firstValue sprintV t []
      | _ => []
    if (field.index (lit "field_name")).eqString fieldName then (stringValue, true)
    else GetCustomField.loop sprintV fieldName fields

/-- The method `Lead.GetCustomField`. -/
def Lead.GetCustomField (sprintV : Iface → Str) (lead : Lead) (fieldName : Str) : Str × Bool :=
  GetCustomField.loop sprintV fieldName lead.CustomFieldsValues

/-- The struct `PipelineStatus` (`Sort_` and `Type_` are the fields `Sort` and `Type`). -/
structure PipelineStatus where
  Id : Int
  Name : Str
  Sort_ : Int
  IsEditable : Bool
  PipelineId : Int
  Color : Str
  Type_ : Int
  AccountId : Int

/-- The struct `PipelineEmbedded`. -/
structure PipelineEmbedded where
  Statuses : List PipelineStatus

/-- The struct `Pipeline` (`Sort_` is the field `Sort`). -/
structure Pipeline where
  Id : Int
  Name : Str
  Sort_ : Int
  IsMain : Bool
  IsUnsortedOn : Bool
  IsArchive : Bool
  AccountId : Int
  Embedded : Option PipelineEmbedded

/-- The inner struct of the envelope of leads, `_embedded`. -/
structure LeadsResEmbedded where
  Leads : List Lead

/-- The anonymous struct the lead operations decode into; `res.Embedded.Leads`
are the decoded leads. -/
structure LeadsRes where
  Embedded : LeadsResEmbedded

/-- The inner struct of the envelope of pipelines, `_embedded`. -/
structure PipelinesResEmbedded where
  Pipelines : List Pipeline

/-- The anonymous struct `Pipelines.List` decodes into. -/
structure PipelinesRes where
  Embedded : PipelinesResEmbedded

/-- The text of a custom field as the specification words it: the `value` entry of
the first element of the `values` list, formatted as text; the empty string
when `values` is not a list, is empty, or its first element is not an object. -/
def valueText (sprintV : Iface → Str) : Iface → Str
  | Iface.slice (Iface.map entry :: _) => sprintV (FieldValues.index entry (lit "value"))
  | _ => []

/-- The custom field is named `fieldName`: its `field_name` entry is that string. -/
def FieldValues.named (field : FieldValues) (fieldName : Str) : Bool :=
  (field.index (lit "field_name")).eqString fieldName

/-! ## The methods of `*api`

The file that defines `*api` is not among the given sources.  Its methods are
a parameter of the embedding: each takes the state of the world (client
fields, token store, network) and returns its results and the new state.
A Go result pair `(value, error)` is either the error or the value.  Every call
of a method is recorded, in order. -/

/-- The methods of `*api` that the embedded functions call (`do_` is the method
`do`; its `body` is nil or a slice of leads; `read` has one field for each type
of the value it decodes into). -/
structure apiMethods (ω : Type) where
  loadToken : ω → Except Err (Option Token) × ω
  setToken : Token → ω → Option Err × ω
  getToken : grantType → Values → Option Values → ω → Except Err Token × ω
  do_ : endpoint → Str → Option Values → Option Values → Option (List Lead) → ω →
    Except Err Response × ω
  readLead : Response → Lead → ω → (Lead × Option Err) × ω
  readLeads : Response → LeadsRes → ω → (LeadsRes × Option Err) × ω
  readPipelines : Response → PipelinesRes → ω → (PipelinesRes × Option Err) × ω

/-- A recorded call of a method of `*api`, with its arguments. -/
inductive Call where
  | loadToken
  | setToken (token : Token)
  | getToken (grant : grantType) (options : Values) (header : Option Values)
  | do_ (ep : endpoint) (method : Str) (query : Option Values) (header : Option Values)
      (body : Option (List Lead))
  | read (resp : Response)

/-- A recorded call is a token exchange, that is a call of `getToken`. -/
def Call.isExchange : Call → Bool
  | Call.getToken _ _ _ => true
  | _ => false

/-- A recorded call installs a token, that is a call of `setToken`. -/
def Call.isSetToken : Call → Bool
  | Call.setToken _ => true
  | _ => false

/-- A recorded call reaches the network: `getToken` and `do`. -/
def Call.isNetwork : Call → Bool
  | Call.getToken _ _ _ => true
  | Call.do_ _ _ _ _ _ => true
  | _ => false

/-- The state the embedded functions run in: the world and the calls made so far. -/
structure St (ω : Type) where
  world : ω
  calls : List Call

/-- The call `a.api.loadToken()`. -/
def api.loadToken {ω : Type} (m : apiMethods ω) (s : St ω) : Except Err (Option Token) × St ω :=
  let r := m.loadToken s.world
  (r.1, { world := r.2, calls := s.calls ++ [Call.loadToken] })

/-- The call `a.api.setToken(token)`. -/
def api.setToken {ω : Type} (m : apiMethods ω) (token : Token) (s : St ω) : Option Err × St ω :=
  let r := m.setToken token s.world
  (r.1, { world := r.2, calls := s.calls ++ [Call.setToken token] })

/-- The call `a.api.getToken(grant, options, header)`. -/
def api.getToken {ω : Type} (m : apiMethods ω) (grant : grantType) (options : Values)
    (header : Option Values) (s : St ω) : Except Err Token × St ω :=
  let r := m.getToken grant options header s.world
  (r.1, { world := r.2, calls := s.calls ++ [Call.getToken grant options header] })

/-- The call `a.api.do(ep, method, query, header, body)`. -/
def api.do_ {ω : Type} (m : apiMethods ω) (ep : endpoint) (method : Str) (query : Option Values)
    (header : Option Values) (body : Option (List Lead)) (s : St ω) : Except Err Response × St ω :=
  let r := m.do_ ep method query header body s.world
  (r.1, { world := r.2, calls := s.calls ++ [Call.do_ ep method query header body] })

/-- The call `a.api.read(resp, &res)` with `res` a `Lead`. -/
def api.readLead {ω : Type} (m : apiMethods ω) (resp : Response) (res : Lead) (s : St ω) :
    (Lead × Option Err) × St ω :=
  let r := m.readLead resp res s.world
  (r.1, { world := r.2, calls := s.calls ++ [Call.read resp] })

/-- The call `a.api.read(resp, &res)` with `res` the envelope of leads. -/
def api.readLeads {ω : Type} (m : apiMethods ω) (resp : Response) (res : LeadsRes) (s : St ω) :
    (LeadsRes × Option Err) × St ω :=
  let r := m.readLeads resp res s.world
  (r.1, { world := r.2, calls := s.calls ++ [Call.read resp] })

/-- The call `a.api.read(resp, &res)` with `res` the envelope of pipelines. -/
def api.readPipelines {ω : Type} (m : apiMethods ω) (resp : Response) (res : PipelinesRes)
    (s : St ω) : (PipelinesRes × Option Err) × St ω :=
  let r := m.readPipelines resp res s.world
  (r.1, { world := r.2, calls := s.calls ++ [Call.read resp] })

/-! ## `client.go`: construction and `AuthorizeURL` -/

/-- Modelled from the spec: the interface `TokenStorage`, declared outside the given
sources (section 6: `Load() -> Token|nil, error` and `Save(Token) -> error`). -/
structure TokenStorage where
  Load : Except Err (Option Token)
  Save : Token → Option Err

/-- Modelled from the spec: the fields of the struct `api`, declared outside the
given sources (section 3, ClientConfig); `AuthorizeURL` reads `clientID` and
`APIHost`. -/
structure api where
  clientID : Str
  clientSecret : Str
  redirectURL : Str
  APIHost : Str
  domain : Str
  storage : Option TokenStorage

/-- Modelled from the spec: the function `newAPI`, defined outside the given
sources: it keeps the client id, client secret and redirect URL it is given
(section 6, Configuration) and leaves the domain unbound (section 3).  The API
host it starts with is not stated; it is the parameter `defaultAPIHost`. -/
def newAPI (defaultAPIHost : Str) (clientID clientSecret redirectURL : Str)
    (tokenStorage : Option TokenStorage) : api :=
  { clientID := clientID, clientSecret := clientSecret, redirectURL := redirectURL,
    APIHost := defaultAPIHost, domain := [], storage := tokenStorage }

/-- The struct `amoCRM`. -/
structure amoCRM where
  api : api

/-- The function `New`. -/
def New (defaultAPIHost : Str) (clientID clientSecret redirectURL : Str) : amoCRM :=
  { api := newAPI defaultAPIHost clientID clientSecret redirectURL none }

/-- The function `NewWithStorage`. -/
def NewWithStorage (defaultAPIHost : Str) (tokenStorage : TokenStorage)
    (clientID clientSecret redirectURL : Str) : amoCRM :=
  { api := newAPI defaultAPIHost clientID clientSecret redirectURL (some tokenStorage) }

/-- Modelled from the spec: the method `SetAPIHost`, which stores the host through
`api.setAPIHost`, defined outside the given sources (section 3: the API host
is mutable after construction; no validation is stated for it). -/
def amoCRM.SetAPIHost (a : amoCRM) (apiHost : Str) : amoCRM :=
  { api := { a.api with APIHost := apiHost } }

/-- The method `amoCRM.AuthorizeURL`.  The constants `PostMessageMode` and
`PopupMode` are declared outside the given sources. -/
def amoCRM.AuthorizeURL (PostMessageMode PopupMode : Str) (a : amoCRM) (state mode : Str) :
    Except Err URL :=
  if state = [] then Except.error (Err.oauth2Err (lit "empty state"))
  else if mode ≠ PostMessageMode ∧ mode ≠ PopupMode then
    Except.error (Err.oauth2Err (lit "unexpected mode"))
  else
    let query := Values.Encode
      [(lit "mode", [mode]), (lit "state", [state]), (lit "client_id", [a.api.clientID])]
    let authURL := lit "https://" ++ a.api.APIHost ++ lit "/oauth?" ++ query
    Parse authURL

/-- A byte that `url.Parse` lets stand in a host: any byte outside ASCII, and the
ASCII bytes that `shouldEscape` does not escape in a host, which are the
letters, the digits and `-_.~!$&()*+,;=:[]<>`, the apostrophe and the double
quote. -/
def hostByteOK (c : Byte) : Bool := decide (128 ≤ c) || !shouldEscape c encoding.encodeHost

/-- The port of the host is well formed, as `parseHost` tests it: in a host that
starts with `[` there is a `]` and what follows the last `]` is empty or `:` and
digits; in any other host what starts at the last `:`, if there is one, is `:`
and digits. -/
def hostPortOK (host : Str) : Bool :=
  if (lit "[").isPrefixOf host then
    match LastIndex host (lit "]") with
    | none => false
    | some i => validOptionalPort (host.drop (i + 1))
  else
    match LastIndex host (lit ":") with
    | none => true
    | some i => validOptionalPort (host.drop i)

/-- The API host is one that `url.Parse` keeps as the host of the URL, byte for
byte: every byte may stand in a host and the port is well formed. -/
def validAPIHost (host : Str) : Bool := host.all hostByteOK && hostPortOK host

/-- A byte is an ASCII control character, as `stringContainsCTLByte` tests it. -/
def isCTL (b : Byte) : Bool := decide (b < ch ' ') || decide (b = 127)

/-! ## `client.go`: the three authorization entry points -/

/-- The method `amoCRM.TokenByCode`. -/
def TokenByCode {ω : Type} (m : apiMethods ω) (code : Str) (s : St ω) : Except Err Token × St ω :=
  api.getToken m grantType.authorizationCodeGrant
    [(lit "code", [code]), (lit "grant_type", [lit "authorization_code"])] none s

/-- The method `amoCRM.LoadTokenOrAuthorize`; the result is the returned `error`. -/
def LoadTokenOrAuthorize {ω : Type} (m : apiMethods ω) (authCode : Str) (s : St ω) :
    Option Err × St ω :=
  match api.loadToken m s with
  | (Except.error err, s1) => (some err, s1)
  | (Except.ok (some token), s1) => api.setToken m token s1
  | (Except.ok none, s1) =>
    match TokenByCode m authCode s1 with
    | (Except.error err, s2) => (some err, s2)
    | (Except.ok token, s2) => api.setToken m token s2

/-- The method `amoCRM.NewTokenAndAuthorize`. -/
def NewTokenAndAuthorize {ω : Type} (m : apiMethods ω) (authCode : Str) (s : St ω) :
    Option Err × St ω :=
  match TokenByCode m authCode s with
  | (Except.error err, s1) => (some err, s1)
  | (Except.ok token, s1) => api.setToken m token s1

/-- The method `amoCRM.LoadTokenAndAuthorize`. -/
def LoadTokenAndAuthorize {ω : Type} (m : apiMethods ω) (s : St ω) : Option Err × St ω :=
  match api.loadToken m s with
  | (Except.error err, s1) => (some err, s1)
  | (Except.ok none, s1) => (some (Err.errorsNew (lit "invalid token")), s1)
  | (Except.ok (some token), s1) => api.setToken m token s1

/-! ## `repository_leads.go` and `repository_pipelines.go`: the operations -/

/-- The method `url.Values.Set`: the key gets the single value. -/
def Values.Set (v : Values) (key value : Str) : Values :=
  (key, [value]) :: v.filter (fun kv => kv.1 ≠ key)

/-- The zero value of the envelope of leads. -/
def LeadsRes.zero : LeadsRes := { Embedded := { Leads := [] } }

/-- The zero value of the envelope of pipelines. -/
def PipelinesRes.zero : PipelinesRes := { Embedded := { Pipelines := [] } }

/-- The method `leads.Create`; the `nil` slice is the empty list.  (The Go comment
above it, `Current returns an Leads entity ...`, describes another operation;
the embedding follows the code.) -/
def leads.Create {ω : Type} (m : apiMethods ω) (leads : List Lead) (s : St ω) :
    (List Lead × Option Err) × St ω :=
  match api.do_ m leadsEndpoint (lit "POST") none none (some leads) s with
  | (Except.error rErr, s1) => (([], some (Err.Errorf (lit "get leads: %w") rErr)), s1)
  | (Except.ok resp, s1) =>
    match api.readLeads m resp LeadsRes.zero s1 with
    | ((_, some err), s2) => (([], some err), s2)
    | ((res, none), s2) => ((res.Embedded.Leads, none), s2)

/-- The method `leads.Update`.  (Its Go comment is the same leftover as that of
`Create`.) -/
def leads.Update {ω : Type} (m : apiMethods ω) (leads : List Lead) (s : St ω) :
    (List Lead × Option Err) × St ω :=
  match api.do_ m leadsEndpoint (lit "PATCH") none none (some leads) s with
  | (Except.error rErr, s1) => (([], some (Err.Errorf (lit "get leads: %w") rErr)), s1)
  | (Except.ok resp, s1) =>
    match api.readLeads m resp LeadsRes.zero s1 with
    | ((_, some err), s2) => (([], some err), s2)
    | ((res, none), s2) => ((res.Embedded.Leads, none), s2)

/-- The method `leads.List`. -/
def leads.List {ω : Type} (m : apiMethods ω) (page : Int) (s : St ω) :
    (List Lead × Option Err) × St ω :=
  let q := Values.Set [] (lit "page") (Sprintf (lit "%d") [Arg.int page])
  match api.do_ m leadsEndpoint (lit "GET") (some q) none none s with
  | (Except.error rErr, s1) => (([], some (Err.Errorf (lit "get leads: %w") rErr)), s1)
  | (Except.ok resp, s1) =>
    match api.readLeads m resp LeadsRes.zero s1 with
    | ((res, err), s2) =>
      if err ≠ none ∧ err ≠ some Err.EOF then (([], err), s2)
      else
        let leads := res.Embedded.Leads
        ((SliceStable (fun a b => decide (a.Id < b.Id)) leads, none), s2)

/-- The method `leads.GetOne`. -/
def leads.GetOne {ω : Type} (m : apiMethods ω) (leadId : Int) (with_ : Str) (s : St ω) :
    (Lead × Option Err) × St ω :=
  let ep := leadEndPoint leadId
  let q := Values.Set [] (lit "with") with_
  match api.do_ m ep (lit "GET") (some q) none none s with
  | (Except.error err, s1) => ((Lead.zero, some (Err.Errorf (lit "get lead: %w") err)), s1)
  | (Except.ok resp, s1) =>
    match api.readLead m resp Lead.zero s1 with
    | ((res, err), s2) =>
      if err ≠ none ∧ err ≠ some Err.EOF then ((Lead.zero, err), s2)
      else if res.Id = 0 then ((Lead.zero, some Err.ErrNoRecord), s2)
      else ((res, none), s2)

/-- The method `pipelines.List`. -/
def pipelines.List {ω : Type} (m : apiMethods ω) (s : St ω) :
    (List Pipeline × Option Err) × St ω :=
  match api.do_ m pipelinesEndpoint (lit "GET") none none none s with
  | (Except.error rErr, s1) => (([], some (Err.Errorf (lit "get pipelines: %w") rErr)), s1)
  | (Except.ok resp, s1) =>
    match api.readPipelines m resp PipelinesRes.zero s1 with
    | ((res, err), s2) =>
      if err ≠ none ∧ err ≠ some Err.EOF then (([], err), s2)
      else ((res.Embedded.Pipelines, none), s2)

/-! ## Concrete worlds for evaluating the embedded functions -/

/-- A token store that holds `stored` and an exchange that answers `exchanged`:
`loadToken` returns the stored token, `getToken` the result of the exchange,
`setToken` puts the token into the world (the installed token). -/
def demoMethods (stored : Option Token) (exchanged : Except Err Token) :
    apiMethods (Option Token) where
  loadToken := fun w => (Except.ok stored, w)
  setToken := fun t _ => (none, some t)
  getToken := fun _ _ _ w => (exchanged, w)
  do_ := fun _ _ _ _ _ w => (Except.error (Err.other 0), w)
  readLead := fun _ res w => ((res, some Err.EOF), w)
  readLeads := fun _ res w => ((res, some Err.EOF), w)
  readPipelines := fun _ res w => ((res, some Err.EOF), w)

/-- A token for concrete runs. -/
def demoToken (name : String) : Token :=
  { access_token := lit name, refresh_token := lit "refresh", token_type := lit "Bearer",
    expires_at := 1700000000 }

/-- A server that answers every request with status 200 and an empty body; reading
an empty body leaves the target as it is and returns `io.EOF`, as
`json.Decoder.Decode` does at the end of the input. -/
def emptyBodyMethods : apiMethods Unit where
  loadToken := fun w => (Except.ok none, w)
  setToken := fun _ w => (none, w)
  getToken := fun _ _ _ w => (Except.error (Err.other 0), w)
  do_ := fun _ _ _ _ _ w => (Except.ok { StatusCode := 200, Body := [] }, w)
  readLead := fun _ res w => ((res, some Err.EOF), w)
  readLeads := fun _ res w => ((res, some Err.EOF), w)
  readPipelines := fun _ res w => ((res, some Err.EOF), w)

/-- A lead with the given id and name and every other field zero. -/
def demoLead (id : Int) (name : String) : Lead :=
  { Lead.zero with Id := id, Name := lit name }

/-- A server whose responses decode to the given leads (`readLeads`) and to the
first of them (`readLead`). -/
def leadsMethods (decoded : List Lead) : apiMethods Unit where
  loadToken := fun w => (Except.ok none, w)
  setToken := fun _ w => (none, w)
  getToken := fun _ _ _ w => (Except.error (Err.other 0), w)
  do_ := fun _ _ _ _ _ w => (Except.ok { StatusCode := 200, Body := lit "..." }, w)
  readLead := fun _ res w => ((decoded.headD res, none), w)
  readLeads := fun _ _ w => (({ Embedded := { Leads := decoded } }, none), w)
  readPipelines := fun _ res w => ((res, none), w)

/-- A custom field with the given name and values. -/
def demoField (name : String) (values : List Iface) : FieldValues :=
  [(lit "field_id", Iface.float64 0), (lit "field_name", Iface.string (lit name)),
   (lit "values", Iface.slice values)]

/-- A value object of a custom field, holding a string. -/
def demoValue (text : String) : Iface :=
  Iface.map [(lit "value", Iface.string (lit text))]

/-- A rendering of the verb `%v` for concrete runs: strings as they are, `nil` as
`<nil>`, other values as `?`. -/
def demoSprintV : Iface → Str
  | Iface.string s => s
  | Iface.nil => lit "<nil>"
  | _ => lit "?"

/-- A client for concrete runs, with the given API host. -/
def demoClient (apiHost : String) : amoCRM :=
  (New (lit "amocrm.ru") (lit "my-id") (lit "secret") (lit "https://example.com/cb")).SetAPIHost
    (lit apiHost)

/-- The URL that `AuthorizeURL` returns for the API host `a?b`, client id `my-id`,
state `s` and mode `popup`: the host is `a`, there is no path, and the query
starts inside the API host. -/
def hostileURL : URL :=
  { URL.zero with
    Scheme := lit "https", Host := lit "a",
    RawQuery := lit "b/oauth?client_id=my-id&mode=popup&state=s" }

/-- The conclusion of the claim about `AuthorizeURL` for the client with the given
API host and client id `my-id`, state `a b&c` and mode `popup`. -/
def authorizeOK (apiHost : String) : Prop :=
  ∃ u : URL, (demoClient apiHost).AuthorizeURL (lit "post_message") (lit "popup")
      (lit "a b&c") (lit "popup") = Except.ok u ∧
    u.Scheme = lit "https" ∧ u.Opaque = [] ∧ u.User = none ∧ u.Host = lit apiHost ∧
    u.Path = lit "/oauth" ∧ u.Fragment = [] ∧
    u.Query =
      [(lit "client_id", [lit "my-id"]), (lit "mode", [lit "popup"]),
       (lit "state", [lit "a b&c"])]
/-! ## Properties of the endpoint registry -/

theorem Sprintf_d (n : Int) : Sprintf (lit "%d") [Arg.int n] = fmtInt n := by
  show fmtInt n ++ [] = fmtInt n
  simp

theorem digit_isDigit (d : Nat) : isDigit (digit d) := by
  have h : d % 10 < 10 := Nat.mod_lt _ (by decide)
  unfold isDigit digit
  interval_cases (d % 10) <;> decide

theorem fmtNatAux_bytes (fuel : Nat) : ∀ (n : Nat) (acc : Str) (c : Byte),
    c ∈ fmtNatAux fuel n acc → c ∈ acc ∨ isDigit c := by
  induction fuel with
  | zero => intro n acc c h; exact Or.inl h
  | succ f ih =>
    intro n acc c h
    unfold fmtNatAux at h
    split at h
    · rcases List.mem_cons.1 h with h | h
      · exact Or.inr (h ▸ digit_isDigit n)
      · exact Or.inl h
    · rcases ih _ _ _ h with h | h
      · rcases List.mem_cons.1 h with h | h
        · exact Or.inr (h ▸ digit_isDigit n)
        · exact Or.inl h
      · exact Or.inr h

theorem fmtNat_bytes (n : Nat) (c : Byte) (h : c ∈ fmtNat n) : isDigit c := by
  rcases fmtNatAux_bytes _ _ _ _ h with h | h
  · cases h
  · exact h

theorem fmtInt_bytes (i : Int) (c : Byte) (h : c ∈ fmtInt i) : c = ch '-' ∨ isDigit c := by
  cases i with
  | ofNat n => exact Or.inr (fmtNat_bytes n c h)
  | negSucc n =>
    rcases List.mem_cons.1 h with h | h
    · exact Or.inl h
    · exact Or.inr (fmtNat_bytes _ c h)

theorem digit_eq_digitChar (n : Nat) : ch (Nat.digitChar (n % 10)) = digit n := by
  have h : n % 10 < 10 := Nat.mod_lt _ (by decide)
  unfold digit
  interval_cases (n % 10) <;> rfl

theorem fmtNatAux_eq_toDigitsCore (fuel : Nat) : ∀ (n : Nat) (acc : List Char),
    fmtNatAux fuel n (acc.map ch) = (Nat.toDigitsCore 10 fuel n acc).map ch := by
  induction fuel with
  | zero => intro n acc; rfl
  | succ f ih =>
    intro n acc
    unfold fmtNatAux Nat.toDigitsCore
    by_cases h : n / 10 = 0
    · simp [h, digit_eq_digitChar]
    · simp only [h, if_false]
      rw [← digit_eq_digitChar, ← List.map_cons, ih]

theorem fmtNat_eq_toString (n : Nat) : fmtNat n = lit (toString n) := by
  have h := fmtNatAux_eq_toDigitsCore (n + 1) n []
  simpa [fmtNat, lit, Nat.toDigits, Nat.repr, List.asString] using h

/-- The embedded `%d` writes the decimal numeral of the integer, as `toString` does. -/
theorem fmtInt_eq_toString (i : Int) : fmtInt i = lit (toString i) := by
  cases i with
  | ofNat n => exact fmtNat_eq_toString n
  | negSucc n =>
    show ch '-' :: fmtNat (n + 1) = lit (toString (Int.negSucc n))
    rw [fmtNat_eq_toString]
    rfl

theorem Index_none_of_not_mem (c : Byte) (sep : Str) :
    ∀ s : Str, c ∉ s → Index s (c :: sep) = none := by
  intro s
  induction s with
  | nil => intro _; simp [Index]
  | cons a s ih =>
    intro h
    have ha : a ≠ c := fun e => h (e ▸ List.mem_cons_self _ _)
    have hs : c ∉ s := fun e => h (List.mem_cons_of_mem _ e)
    have hc : ¬ c = a := fun e => ha e.symm
    simp [Index, List.isPrefixOf, ih hs, hc]

theorem brace_not_mem_fmtInt (i : Int) : ch '\x7b' ∉ fmtInt i := by
  intro h
  rcases fmtInt_bytes i _ h with h | h
  · exact absurd h (by decide)
  · exact absurd h (by unfold isDigit; decide)

theorem placeholder_ne_fmtInt (i : Int) : lit "\x7bid\x7d" ≠ fmtInt i := by
  intro h
  apply brace_not_mem_fmtInt i
  rw [← h]
  decide

theorem leadEndPoint_eq (i : Int) : leadEndPoint i = lit "leads/" ++ fmtInt i := by
  have h1 : Count leadEndpoint (lit "\x7bid\x7d") = 1 := by decide
  have h2 : Index leadEndpoint (lit "\x7bid\x7d") = some 6 := by decide
  have h3 : leadEndpoint.take 6 = lit "leads/" := by decide
  have h4 : leadEndpoint.drop (6 + (lit "\x7bid\x7d").length) = [] := by decide
  unfold leadEndPoint
  rw [Sprintf_d]
  unfold Replace
  simp only [placeholder_ne_fmtInt, h1, false_or]
  simp [replaceLoop, h2, h3, h4]

theorem contactEndPoint_eq (i : Int) : contactEndPoint i = lit "contacts/" ++ fmtInt i := by
  have h1 : Count contactEndpoint (lit "\x7bid\x7d") = 1 := by decide
  have h2 : Index contactEndpoint (lit "\x7bid\x7d") = some 9 := by decide
  have h3 : contactEndpoint.take 9 = lit "contacts/" := by decide
  have h4 : contactEndpoint.drop (9 + (lit "\x7bid\x7d").length) = [] := by decide
  unfold contactEndPoint
  rw [Sprintf_d]
  unfold Replace
  simp only [placeholder_ne_fmtInt, h1, false_or]
  simp [replaceLoop, h2, h3, h4]

theorem no_placeholder_left (pre : Str) (i : Int) (hpre : ch '\x7b' ∉ pre) :
    Index (pre ++ fmtInt i) (lit "\x7bid\x7d") = none := by
  have h : lit "\x7bid\x7d" = ch '\x7b' :: lit "id\x7d" := by decide
  rw [h]
  apply Index_none_of_not_mem
  intro hm
  rcases List.mem_append.1 hm with hm | hm
  · exact hpre hm
  · exact brace_not_mem_fmtInt i hm

theorem path_form_aux (apiVersion : Int) (eventsV2endpoint e : endpoint) :
    endpoint.path apiVersion eventsV2endpoint e =
      if e = eventsV2endpoint then lit "/api/v2/" ++ e ++ lit "/"
      else lit "/api/v" ++ fmtInt apiVersion ++ lit "/" ++ e := by
  unfold endpoint.path
  split
  · rfl
  · show lit "/api/v" ++ (fmtInt apiVersion ++ (lit "/" ++ (e ++ []))) = _
    simp

/-- C5. For every endpoint `e`, `path(e)` is `/api/v2/` ++ e ++ `/` when `e` is the
events-v2 endpoint, whatever the `apiVersion` constant, and `/api/v` ++ decimal
`apiVersion` ++ `/` ++ e, without a trailing slash, for every other endpoint. -/
theorem path_form (apiVersion : Int) (eventsV2endpoint e : endpoint) :
    endpoint.path apiVersion eventsV2endpoint e =
      if e = eventsV2endpoint then lit "/api/v2/" ++ e ++ lit "/"
      else lit "/api/v" ++ lit (toString apiVersion) ++ lit "/" ++ e := by
  rw [path_form_aux, fmtInt_eq_toString]

/-- C6. For every integer id, `leadEndPoint(id)` is `leads/` followed by the decimal
id and `contactEndPoint(id)` is `contacts/` followed by the decimal id; no `{id}`
placeholder remains in either; and `leadEndPoint(42).path()` is
`/api/v{apiVersion}/leads/42` whenever the events-v2 constant is not itself
`leads/42`. -/
theorem endPoint_substitution (id : Int) :
    leadEndPoint id = lit "leads/" ++ lit (toString id) ∧
    contactEndPoint id = lit "contacts/" ++ lit (toString id) ∧
    Index (leadEndPoint id) (lit "\x7bid\x7d") = none ∧
    Index (contactEndPoint id) (lit "\x7bid\x7d") = none ∧
    ∀ (apiVersion : Int) (eventsV2endpoint : endpoint), eventsV2endpoint ≠ lit "leads/42" →
      endpoint.path apiVersion eventsV2endpoint (leadEndPoint 42) =
        lit "/api/v" ++ lit (toString apiVersion) ++ lit "/leads/42" := by
  refine ⟨?_, ?_, ?_, ?_, ?_⟩
  · rw [leadEndPoint_eq, fmtInt_eq_toString]
  · rw [contactEndPoint_eq, fmtInt_eq_toString]
  · rw [leadEndPoint_eq]
    exact no_placeholder_left _ _ (by decide)
  · rw [contactEndPoint_eq]
    exact no_placeholder_left _ _ (by decide)
  · intro apiVersion ev hev
    have h42 : leadEndPoint 42 = lit "leads/42" := by decide
    rw [path_form_aux, h42, if_neg (fun e => hev e.symm), fmtInt_eq_toString]
    have : lit "/leads/42" = lit "/" ++ lit "leads/42" := by decide
    rw [this]
    simp

/-- C6 at a concrete input: ids 0, -15 and 42 with `apiVersion = 4` and the events-v2
constant `events`. -/
theorem endPoint_substitution_witness :
    leadEndPoint (-15) = lit "leads/-15" ∧ contactEndPoint 0 = lit "contacts/0" ∧
    endpoint.path 4 (lit "events") (leadEndPoint 42) = lit "/api/v4/leads/42" :=
  ⟨(endPoint_substitution (-15)).1, (endPoint_substitution 0).2.1,
    (endPoint_substitution 0).2.2.2.2 4 (lit "events") (by decide)⟩

/-! ## Properties of `net/url`: escaping -/

set_option maxRecDepth 100000 in
theorem hex_roundtrip : ∀ c : Byte,
    ishex (upperhex (c >>> 4)) = true ∧ ishex (upperhex (c &&& 15)) = true ∧
    (unhex (upperhex (c >>> 4)) <<< 4 ||| unhex (upperhex (c &&& 15))) = c := by
  decide!

set_option maxRecDepth 100000 in
theorem unescaped_not_special : ∀ c : Byte,
    shouldEscape c encoding.encodeQueryComponent = false → c ≠ ch '%' ∧ c ≠ ch '+' := by
  decide!

set_option maxRecDepth 100000 in
theorem escapeByte_all_querySafe : ∀ c : Byte,
    (escapeByte encoding.encodeQueryComponent c).all querySafe = true := by
  decide!

theorem escapeByte_querySafe (c : Byte) :
    ∀ b ∈ escapeByte encoding.encodeQueryComponent c, querySafe b = true :=
  List.all_eq_true.1 (escapeByte_all_querySafe c)

theorem escape_cons (mode : encoding) (c : Byte) (s : Str) :
    escape (c :: s) mode = escapeByte mode c ++ escape s mode := by
  simp [escape]

theorem QueryEscape_querySafe (s : Str) : ∀ b ∈ QueryEscape s, querySafe b = true := by
  induction s with
  | nil => intro b hb; simp [QueryEscape, escape] at hb
  | cons c s ih =>
    intro b hb
    unfold QueryEscape at hb
    rw [escape_cons] at hb
    rcases List.mem_append.1 hb with hb | hb
    · exact escapeByte_querySafe c b hb
    · exact ih b hb

theorem unescapeScan_percent (mode : encoding) (h1 h2 : Byte) (rest2 : Str) (n : Nat)
    (hasPlus : Bool) (hx1 : ishex h1 = true) (hx2 : ishex h2 = true)
    (hm : mode = encoding.encodeQueryComponent ∨ mode = encoding.encodePath) :
    unescapeScan mode (ch '%' :: h1 :: h2 :: rest2) n hasPlus =
      unescapeScan mode rest2 (n + 1) hasPlus := by
  rw [unescapeScan.eq_2]
  rcases hm with hm | hm <;> subst hm <;> simp [hx1, hx2]

theorem unescapeScan_plain (mode : encoding) (c : Byte) (rest : Str) (n : Nat) (hasPlus : Bool)
    (hc1 : c ≠ ch '%') (hc2 : c ≠ ch '+')
    (hm : (mode = encoding.encodeHost ∨ mode = encoding.encodeZone) →
      ¬ (c < 128 ∧ shouldEscape c encoding.encodeHost = true)) :
    unescapeScan mode (c :: rest) n hasPlus = unescapeScan mode rest n hasPlus := by
  have hcond : ¬ ((mode = encoding.encodeHost ∨ mode = encoding.encodeZone) ∧ c < 128 ∧
      shouldEscape c encoding.encodeHost = true) := fun h => hm h.1 h.2
  rcases rest with _ | ⟨a, _ | ⟨b, r⟩⟩
  · rw [unescapeScan.eq_3 _ _ _ _ _ (by intro _ _ _ h; cases h)]
    simp only [hc1, hc2, hcond, if_false]
  · rw [unescapeScan.eq_3 _ _ _ _ _ (by intro _ _ _ h; cases h)]
    simp only [hc1, hc2, hcond, if_false]
  · rw [unescapeScan.eq_2]
    simp only [hc1, hc2, hcond, if_false]

theorem unescapeScan_plus (c : Byte) (rest : Str) (n : Nat) (hasPlus : Bool) (hc : c = ch '+') :
    unescapeScan encoding.encodeQueryComponent (c :: rest) n hasPlus =
      unescapeScan encoding.encodeQueryComponent rest n true := by
  subst hc
  have h1 : ch '+' ≠ ch '%' := by decide
  rcases rest with _ | ⟨a, _ | ⟨b, r⟩⟩
  · rw [unescapeScan.eq_3 _ _ _ _ _ (by intro _ _ _ h; cases h)]
    simp [h1]
  · rw [unescapeScan.eq_3 _ _ _ _ _ (by intro _ _ _ h; cases h)]
    simp [h1]
  · rw [unescapeScan.eq_2]
    simp [h1]

theorem unescapeWrite_percent (mode : encoding) (h1 h2 : Byte) (rest2 : Str) :
    unescapeWrite mode (ch '%' :: h1 :: h2 :: rest2) =
      (unhex h1 <<< 4 ||| unhex h2) :: unescapeWrite mode rest2 := by
  rw [unescapeWrite.eq_2]
  simp

theorem unescapeWrite_plain (mode : encoding) (c : Byte) (rest : Str)
    (hc1 : c ≠ ch '%') (hc2 : c ≠ ch '+') :
    unescapeWrite mode (c :: rest) = c :: unescapeWrite mode rest := by
  rcases rest with _ | ⟨a, _ | ⟨b, r⟩⟩ <;> simp [unescapeWrite, hc1, hc2]

theorem unescapeWrite_plus (rest : Str) :
    unescapeWrite encoding.encodeQueryComponent (ch '+' :: rest) =
      ch ' ' :: unescapeWrite encoding.encodeQueryComponent rest := by
  have h1 : ch '+' ≠ ch '%' := by decide
  rcases rest with _ | ⟨a, _ | ⟨b, r⟩⟩ <;> simp [unescapeWrite, h1]

theorem scan_escapeByte (c : Byte) (rest : Str) (n : Nat) (hasPlus : Bool) :
    unescapeScan encoding.encodeQueryComponent
        (escapeByte encoding.encodeQueryComponent c ++ rest) n hasPlus =
      unescapeScan encoding.encodeQueryComponent rest (n + escCount c) (hasPlus || escPlus c) := by
  unfold escapeByte escCount escPlus
  by_cases hsp : c = ch ' '
  · simp only [hsp, and_self, if_true, ne_eq, not_true_eq_false, false_and, if_false,
      decide_True, Bool.or_true, Nat.add_zero]
    exact unescapeScan_plus _ _ _ _ rfl
  · by_cases hesc : shouldEscape c encoding.encodeQueryComponent = true
    · have h := hex_roundtrip c
      simp only [hsp, false_and, if_false, hesc, if_true, ne_eq, not_false_eq_true, and_self,
        decide_False, Bool.or_false]
      exact unescapeScan_percent _ _ _ _ _ _ h.1 h.2.1 (Or.inl rfl)
    · have h := unescaped_not_special c (by simpa using hesc)
      simp only [hsp, false_and, if_false, hesc, ne_eq, not_false_eq_true, and_false,
        decide_False, Bool.or_false, Nat.add_zero]
      exact unescapeScan_plain _ _ _ _ _ h.1 h.2 (by intro hm; rcases hm with hm | hm <;> cases hm)

theorem scan_escape (s : Str) : ∀ (n : Nat) (hasPlus : Bool),
    unescapeScan encoding.encodeQueryComponent (escape s encoding.encodeQueryComponent) n hasPlus =
      Except.ok (n + (s.map escCount).sum, hasPlus || s.any escPlus) := by
  induction s with
  | nil => intro n hp; simp [escape, unescapeScan]
  | cons c s ih =>
    intro n hp
    rw [escape_cons, scan_escapeByte, ih]
    simp [Nat.add_assoc, Bool.or_assoc]

theorem escape_eq_self (s : Str) :
    (s.map escCount).sum = 0 → s.any escPlus = false →
      escape s encoding.encodeQueryComponent = s := by
  induction s with
  | nil => intro _ _; simp [escape]
  | cons c s ih =>
    intro h1 h2
    simp only [List.map_cons, List.sum_cons, Nat.add_eq_zero_iff] at h1
    simp only [List.any_cons, Bool.or_eq_false_iff] at h2
    rw [escape_cons, ih h1.2 h2.2]
    have hsp : c ≠ ch ' ' := by simpa [escPlus] using h2.1
    have hesc : ¬ shouldEscape c encoding.encodeQueryComponent = true := by
      intro hesc
      have := h1.1
      simp [escCount, hsp, hesc] at this
    simp [escapeByte, hsp, hesc]

theorem write_escapeByte (c : Byte) (rest : Str) :
    unescapeWrite encoding.encodeQueryComponent
        (escapeByte encoding.encodeQueryComponent c ++ rest) =
      c :: unescapeWrite encoding.encodeQueryComponent rest := by
  unfold escapeByte
  split
  · rename_i h
    rw [h.1]
    exact unescapeWrite_plus rest
  · split
    · have h := hex_roundtrip c
      show unescapeWrite _ (ch '%' :: _ :: _ :: rest) = _
      rw [unescapeWrite_percent, h.2.2]
    · rename_i hne
      have h := unescaped_not_special c (by simpa using hne)
      exact unescapeWrite_plain _ _ _ h.1 h.2

theorem write_escape (s : Str) :
    unescapeWrite encoding.encodeQueryComponent (escape s encoding.encodeQueryComponent) = s := by
  induction s with
  | nil => simp [escape, unescapeWrite]
  | cons c s ih => rw [escape_cons, write_escapeByte, ih]

theorem QueryUnescape_QueryEscape (s : Str) : QueryUnescape (QueryEscape s) = Except.ok s := by
  unfold QueryUnescape QueryEscape unescape
  rw [scan_escape]
  simp only [Nat.zero_add, Bool.false_or]
  split
  · rename_i h
    rw [escape_eq_self s h.1 h.2]
  · rw [write_escape]

set_option maxRecDepth 100000 in
theorem querySafe_not_separator : ∀ b : Byte, querySafe b = true →
    b ≠ ch '&' ∧ b ≠ ch '=' ∧ b ≠ ch ';' ∧ b ≠ ch '?' ∧ b ≠ ch '#' ∧
    (decide (b < ch ' ') || decide (b = 127)) = false := by
  decide!

/-! ## Properties of `strings.Index` and `strings.Cut` with a one-byte separator -/

theorem Index_single (c : Byte) (b : Str) : ∀ a : Str, c ∉ a →
    Index (a ++ c :: b) [c] = some a.length := by
  intro a
  induction a with
  | nil => intro _; simp [Index, List.isPrefixOf]
  | cons x a ih =>
    intro h
    have hx : ¬ c = x := fun e => h (e ▸ List.mem_cons_self _ _)
    have ha : c ∉ a := fun e => h (List.mem_cons_of_mem _ e)
    simp [Index, List.isPrefixOf, hx, ih ha]

theorem Cut_single (c : Byte) (a b : Str) (h : c ∉ a) :
    Cut (a ++ c :: b) [c] = (a, b, true) := by
  simp [Cut, Index_single c b a h]

theorem Cut_none (c : Byte) (s : Str) (h : c ∉ s) : Cut s [c] = (s, [], false) := by
  simp [Cut, Index_none_of_not_mem c [] s h]

theorem Contains_none (c : Byte) (s : Str) (h : c ∉ s) : Contains s [c] = false := by
  simp [Contains, Index_none_of_not_mem c [] s h]

theorem LastIndex_none (c : Byte) (s : Str) (h : c ∉ s) : LastIndex s [c] = none := by
  have h1 : c ∉ s.reverse := fun e => h (List.mem_reverse.1 e)
  simp [LastIndex, Index_none_of_not_mem c [] s.reverse h1]

/-! ## Properties of `net/url`: `Values.Encode` and `ParseQuery` -/

theorem parseQueryLoop_nil (fuel : Nat) (m : Values) (err : Option Err) :
    parseQueryLoop fuel m err [] = (m, err) := by
  cases fuel <;> simp [parseQueryLoop]

theorem piece_facts (k v : Str) :
    ch '&' ∉ QueryEscape k ++ ch '=' :: QueryEscape v ∧
    ch ';' ∉ QueryEscape k ++ ch '=' :: QueryEscape v ∧
    ch '=' ∉ QueryEscape k := by
  refine ⟨?_, ?_, ?_⟩
  · intro h
    rcases List.mem_append.1 h with h | h
    · exact (querySafe_not_separator _ (QueryEscape_querySafe k _ h)).1 rfl
    · rcases List.mem_cons.1 h with h | h
      · exact absurd h (by decide)
      · exact (querySafe_not_separator _ (QueryEscape_querySafe v _ h)).1 rfl
  · intro h
    rcases List.mem_append.1 h with h | h
    · exact (querySafe_not_separator _ (QueryEscape_querySafe k _ h)).2.2.1 rfl
    · rcases List.mem_cons.1 h with h | h
      · exact absurd h (by decide)
      · exact (querySafe_not_separator _ (QueryEscape_querySafe v _ h)).2.2.1 rfl
  · intro h
    exact (querySafe_not_separator _ (QueryEscape_querySafe k _ h)).2.1 rfl

theorem parseQueryLoop_piece (fuel : Nat) (m : Values) (err : Option Err) (k v query1 : Str)
    (query : Str)
    (hcut : Cut query (lit "&") = (QueryEscape k ++ ch '=' :: QueryEscape v, query1, true) ∨
      Cut query (lit "&") = (QueryEscape k ++ ch '=' :: QueryEscape v, query1, false))
    (hne : query ≠ []) :
    parseQueryLoop (fuel + 1) m err query = parseQueryLoop fuel (Values.append m k v) err query1 := by
  rcases piece_facts k v with ⟨_, hsemi, heq⟩
  have hcut1 : (Cut query (lit "&")).1 = QueryEscape k ++ ch '=' :: QueryEscape v := by
    rcases hcut with h | h <;> rw [h]
  have hcut2 : (Cut query (lit "&")).2.1 = query1 := by
    rcases hcut with h | h <;> rw [h]
  have hsemi1 : Contains (QueryEscape k ++ ch '=' :: QueryEscape v) (lit ";") = false :=
    Contains_none _ _ hsemi
  have hpiece : QueryEscape k ++ ch '=' :: QueryEscape v ≠ [] := by simp
  have hkv : Cut (QueryEscape k ++ ch '=' :: QueryEscape v) (lit "=") =
      (QueryEscape k, QueryEscape v, true) := Cut_single _ _ _ heq
  rw [parseQueryLoop]
  simp only [hne, if_false, hcut1, hcut2, hsemi1, hpiece, hkv, QueryUnescape_QueryEscape,
    Bool.false_eq_true]

theorem parseQueryLoop_pair (fuel : Nat) (m : Values) (err : Option Err) (k v rest : Str) :
    parseQueryLoop (fuel + 1) m err ((QueryEscape k ++ ch '=' :: QueryEscape v) ++ ch '&' :: rest) =
      parseQueryLoop fuel (Values.append m k v) err rest :=
  parseQueryLoop_piece fuel m err k v rest _
    (Or.inl (Cut_single _ _ _ (piece_facts k v).1)) (by simp)

theorem parseQueryLoop_last (fuel : Nat) (m : Values) (err : Option Err) (k v : Str) :
    parseQueryLoop (fuel + 1) m err (QueryEscape k ++ ch '=' :: QueryEscape v) =
      (Values.append m k v, err) := by
  rw [parseQueryLoop_piece fuel m err k v [] _
    (Or.inr (Cut_none _ _ (piece_facts k v).1)) (by simp), parseQueryLoop_nil]

/-- The query string `AuthorizeURL` builds. -/
theorem Encode_authorize (mode state clientID : Str) :
    Values.Encode [(lit "mode", [mode]), (lit "state", [state]), (lit "client_id", [clientID])] =
      (QueryEscape (lit "client_id") ++ ch '=' :: QueryEscape clientID) ++ ch '&' ::
        ((QueryEscape (lit "mode") ++ ch '=' :: QueryEscape mode) ++ ch '&' ::
          (QueryEscape (lit "state") ++ ch '=' :: QueryEscape state)) := by
  have hs : sortStrings [lit "mode", lit "state", lit "client_id"] =
      [lit "client_id", lit "mode", lit "state"] := by decide
  have h1 : Values.index [(lit "mode", [mode]), (lit "state", [state]),
      (lit "client_id", [clientID])] (lit "client_id") = [clientID] := rfl
  have h2 : Values.index [(lit "mode", [mode]), (lit "state", [state]),
      (lit "client_id", [clientID])] (lit "mode") = [mode] := rfl
  have h3 : Values.index [(lit "mode", [mode]), (lit "state", [state]),
      (lit "client_id", [clientID])] (lit "state") = [state] := rfl
  have e1 : QueryEscape (lit "client_id") = lit "client_id" := by decide
  simp only [Values.Encode, List.length_cons, List.length_nil, List.map_cons, List.map_nil, hs,
    Values.encodeLoop, h1, h2, h3, Values.encodeKey]
  simp [e1]

/-! ## The fuel of the embedded loops is enough -/

theorem Index_lt_length (sep : Str) (hsep : sep ≠ []) : ∀ (s : Str) (i : Nat),
    Index s sep = some i → i + sep.length ≤ s.length := by
  intro s
  induction s with
  | nil => intro i h; simp [Index, hsep] at h
  | cons c cs ih =>
    intro i h
    unfold Index at h
    split at h
    · rename_i hp
      have hpre : sep <+: c :: cs := List.isPrefixOf_iff_prefix.1 hp
      have hi : i = 0 := by simpa using h.symm
      subst hi
      simpa using hpre.length_le
    · cases hrec : Index cs sep with
      | none => simp [hrec] at h
      | some j =>
        simp only [hrec, Option.map_some', Option.some.injEq] at h
        have := ih j hrec
        subst h
        simp only [List.length_cons]
        omega

theorem Cut_rest_length (s sep : Str) (hsep : sep ≠ []) (hs : s ≠ []) :
    (Cut s sep).2.1.length < s.length := by
  have hpos : 0 < s.length := List.length_pos.2 hs
  have hsl : 0 < sep.length := List.length_pos.2 hsep
  unfold Cut
  cases h : Index s sep with
  | none => simpa using hpos
  | some i =>
    simp only [List.length_drop]
    omega

/-- Above the length of the query the fuel no longer matters: the loop of
`parseQuery` ends. -/
theorem parseQueryLoop_fuel : ∀ (fuel1 fuel2 : Nat) (m : Values) (err : Option Err) (query : Str),
    query.length < fuel1 → query.length < fuel2 →
    parseQueryLoop fuel1 m err query = parseQueryLoop fuel2 m err query := by
  intro fuel1
  induction fuel1 with
  | zero => intro fuel2 m err query h1 _; exact absurd h1 (Nat.not_lt_zero _)
  | succ f1 ih =>
    intro fuel2 m err query h1 h2
    cases fuel2 with
    | zero => exact absurd h2 (Nat.not_lt_zero _)
    | succ f2 =>
      by_cases hq : query = []
      · subst hq; simp [parseQueryLoop]
      · have hlt := Cut_rest_length query (lit "&") (by decide) hq
        have hr1 : (Cut query (lit "&")).2.1.length < f1 := by omega
        have hr2 : (Cut query (lit "&")).2.1.length < f2 := by omega
        rw [parseQueryLoop, parseQueryLoop]
        simp only [hq, if_false]
        split
        · exact ih f2 _ _ _ hr1 hr2
        · split
          · exact ih f2 _ _ _ hr1 hr2
          · split
            · exact ih f2 _ _ _ hr1 hr2
            · split
              · exact ih f2 _ _ _ hr1 hr2
              · exact ih f2 _ _ _ hr1 hr2

/-- Above the length of the string the fuel no longer matters: the count of
`strings.Count` is complete. -/
theorem countAux_fuel (sep : Str) (hsep : sep ≠ []) : ∀ (fuel1 fuel2 : Nat) (s : Str),
    s.length ≤ fuel1 → s.length ≤ fuel2 → countAux fuel1 s sep = countAux fuel2 s sep := by
  have hnone : ∀ fuel, countAux fuel [] sep = 0 := by
    intro fuel
    cases fuel with
    | zero => rfl
    | succ f => simp [countAux, Index, hsep]
  intro fuel1
  induction fuel1 with
  | zero =>
    intro fuel2 s h1 _
    have hs : s = [] := List.length_eq_zero.1 (Nat.le_zero.1 h1)
    subst hs
    rw [hnone, hnone]
  | succ f1 ih =>
    intro fuel2 s h1 h2
    cases fuel2 with
    | zero =>
      have hs : s = [] := List.length_eq_zero.1 (Nat.le_zero.1 h2)
      subst hs
      rw [hnone, hnone]
    | succ f2 =>
      unfold countAux
      cases h : Index s sep with
      | none => rfl
      | some j =>
        have hj := Index_lt_length sep hsep s j h
        have hsl : 0 < sep.length := List.length_pos.2 hsep
        have hd : (s.drop (j + sep.length)).length = s.length - (j + sep.length) := by simp
        simp only
        rw [ih f2 _ (by omega) (by omega)]

/-! ## Properties of `net/url`: hosts that `Parse` keeps -/

set_option maxRecDepth 100000 in
theorem hostByteOK_facts : ∀ c : Byte, hostByteOK c = true →
    c ≠ ch '%' ∧ c ≠ ch '#' ∧ c ≠ ch '?' ∧ c ≠ ch '/' ∧ c ≠ ch '@' ∧ isCTL c = false ∧
    ¬ (c < 128 ∧ shouldEscape c encoding.encodeHost = true) := by
  decide!

theorem isSuffixOf_single_false (c : Byte) (p q : Str) (hq : q ≠ []) (hc : c ∉ q) :
    [c].isSuffixOf (p ++ q) = false := by
  have hrev : q.reverse ≠ [] := by simpa using hq
  obtain ⟨b, t, hbt⟩ := List.exists_cons_of_ne_nil hrev
  have hb : b ∈ q := by
    have : b ∈ q.reverse := by rw [hbt]; exact List.mem_cons_self _ _
    exact List.mem_reverse.1 this
  have hcb : ¬ c = b := fun e => hc (e ▸ hb)
  simp [List.isSuffixOf, List.reverse_append, hbt, List.isPrefixOf, hcb]

theorem getScheme_https (r : Str) : getScheme (lit "https:" ++ r) = Except.ok (lit "https", r) :=
  rfl

theorem setPath_oauth (u : URL) :
    URL.setPath u (lit "/oauth") = Except.ok { u with Path := lit "/oauth", RawPath := [] } :=
  rfl

/-- The first loop of `unescape` at a byte other than `%`. -/
theorem unescapeScan_nonpercent (mode : encoding) (c : Byte) (rest : Str) (n : Nat)
    (hasPlus : Bool) (hc : c ≠ ch '%') :
    unescapeScan mode (c :: rest) n hasPlus =
      if c = ch '+' then
        unescapeScan mode rest n (decide (mode = encoding.encodeQueryComponent))
      else if (mode = encoding.encodeHost ∨ mode = encoding.encodeZone) ∧ c < 128 ∧
          shouldEscape c encoding.encodeHost = true then
        Except.error (Err.InvalidHostError [c])
      else unescapeScan mode rest n hasPlus := by
  rcases rest with _ | ⟨a, _ | ⟨b, r⟩⟩
  · rw [unescapeScan.eq_3 _ _ _ _ _ (by intro _ _ _ h; cases h)]
    simp only [hc, if_false]
  · rw [unescapeScan.eq_3 _ _ _ _ _ (by intro _ _ _ h; cases h)]
    simp only [hc, if_false]
  · rw [unescapeScan.eq_2]
    simp only [hc, if_false]

theorem scan_hostOK (host : Str) (hh : ∀ c ∈ host, hostByteOK c = true) : ∀ n : Nat,
    unescapeScan encoding.encodeHost host n false = Except.ok (n, false) := by
  induction host with
  | nil => intro n; rfl
  | cons c host ih =>
    intro n
    have hc := hostByteOK_facts c (hh c (List.mem_cons_self _ _))
    have hrest := ih (fun b hb => hh b (List.mem_cons_of_mem _ hb)) n
    have hmode : decide (encoding.encodeHost = encoding.encodeQueryComponent) = false := by decide
    rw [unescapeScan_nonpercent _ _ _ _ _ hc.1]
    by_cases hplus : c = ch '+'
    · rw [if_pos hplus, hmode]
      exact hrest
    · have hcond : ¬ ((encoding.encodeHost = encoding.encodeHost ∨
          encoding.encodeHost = encoding.encodeZone) ∧ c < 128 ∧
          shouldEscape c encoding.encodeHost = true) := fun h => hc.2.2.2.2.2.2 h.2
      rw [if_neg hplus, if_neg hcond]
      exact hrest

theorem unescape_hostOK (host : Str) (hh : ∀ c ∈ host, hostByteOK c = true) :
    unescape host encoding.encodeHost = Except.ok host := by
  unfold unescape
  rw [scan_hostOK host hh]
  simp

theorem validAPIHost_bytes (host : Str) (hv : validAPIHost host = true) :
    ∀ c ∈ host, hostByteOK c = true := by
  unfold validAPIHost at hv
  exact List.all_eq_true.1 (Bool.and_eq_true_iff.1 hv).1

theorem validAPIHost_port (host : Str) (hv : validAPIHost host = true) :
    hostPortOK host = true := by
  unfold validAPIHost at hv
  exact (Bool.and_eq_true_iff.1 hv).2

theorem parseHost_valid (host : Str) (hv : validAPIHost host = true) :
    parseHost host = Except.ok host := by
  have hb := validAPIHost_bytes host hv
  have hp := validAPIHost_port host hv
  have hun := unescape_hostOK host hb
  unfold hostPortOK at hp
  unfold parseHost
  by_cases hbr : (lit "[").isPrefixOf host = true
  · simp only [hbr, if_true] at hp ⊢
    cases hl : LastIndex host (lit "]") with
    | none => simp [hl] at hp
    | some i =>
      simp only [hl] at hp ⊢
      have hzone : Index (host.take i) (lit "%25") = none := by
        have e : lit "%25" = ch '%' :: lit "25" := by decide
        rw [e]
        exact Index_none_of_not_mem _ _ _
          (fun h => (hostByteOK_facts _ (hb _ (List.mem_of_mem_take h))).1 rfl)
      simp only [hp, not_true_eq_false, if_false, hzone, hun]
  · simp only [hbr, Bool.false_eq_true, if_false] at hp ⊢
    cases hl : LastIndex host (lit ":") with
    | none => simp only [hun]
    | some i =>
      simp only [hl] at hp ⊢
      simp only [hp, not_true_eq_false, if_false, hun]

theorem parseAuthority_valid (host : Str) (hv : validAPIHost host = true) :
    parseAuthority host = Except.ok (none, host) := by
  have hat : LastIndex host (lit "@") = none :=
    LastIndex_none _ _
      (fun h => (hostByteOK_facts _ (validAPIHost_bytes host hv _ h)).2.2.2.2.1 rfl)
  unfold parseAuthority
  simp only [hat, parseHost_valid host hv]

/-! ## Properties of `net/url`: `parse` on a URL that starts with `https:` -/

theorem parse_ctl (rawURL : Str) (h : stringContainsCTLByte rawURL = true) :
    parse rawURL =
      Except.error (Err.errorsNew (lit "net/url: invalid control character in URL")) := by
  unfold parse
  simp only [h, if_true]

/-- After the scheme `https` is taken off, `parse` splits the query and goes on as
`parseAfterQuery`. -/
theorem parse_afterQuery (r : Str) (hctl : stringContainsCTLByte (lit "https:" ++ r) = false) :
    parse (lit "https:" ++ r) =
      if ((lit "?").isSuffixOf r && decide (Count r (lit "?") = 1)) = true then
        parseAfterQuery { URL.zero with Scheme := lit "https", ForceQuery := true }
          (r.take (r.length - 1))
      else
        parseAfterQuery { URL.zero with Scheme := lit "https", RawQuery := (Cut r (lit "?")).2.1 }
          (Cut r (lit "?")).1 := by
  have hstar : ¬ (lit "https:" ++ r = lit "*") := by
    intro h
    have h1 : (lit "https:" ++ r).head? = some (ch 'h') := rfl
    rw [h] at h1
    exact absurd h1 (by decide)
  have hlow : ToLower (lit "https") = lit "https" := by decide
  unfold parse
  simp only [hctl, hstar, getScheme_https, hlow, Bool.false_eq_true, if_false]
  split <;> rfl

theorem setPath_keeps (v u : URL) (p : Str) (h : URL.setPath v p = Except.ok u) :
    u.Host = v.Host ∧ u.User = v.User := by
  unfold URL.setPath at h
  split at h
  · cases h
  · split at h <;> (cases h; exact ⟨rfl, rfl⟩)

theorem setFragment_keeps (v u : URL) (f : Str) (h : URL.setFragment v f = Except.ok u) :
    u.Host = v.Host ∧ u.User = v.User := by
  unfold URL.setFragment at h
  split at h
  · cases h
  · split at h <;> (cases h; exact ⟨rfl, rfl⟩)

/-- With a scheme and a `rest` that starts with `//`, `parseAfterQuery` takes the
authority up to the first `/` and sets the path to what follows. -/
theorem parseAfterQuery_authority (url1 : URL) (y : Str) (hs : url1.Scheme ≠ []) :
    parseAfterQuery url1 (lit "//" ++ y) =
      match parseAuthority (match Index y (lit "/") with
        | some i => y.take i
        | none => y) with
      | Except.error e => Except.error e
      | Except.ok (user, host) =>
        URL.setPath { url1 with User := user, Host := host }
          (match Index y (lit "/") with
            | some i => y.drop i
            | none => []) := by
  have hpre2 : (lit "//").isPrefixOf (lit "//" ++ y) = true :=
    List.isPrefixOf_iff_prefix.2 (List.prefix_append _ _)
  have hpre1 : (lit "/").isPrefixOf (lit "//" ++ y) = true :=
    List.isPrefixOf_iff_prefix.2
      ((show lit "/" <+: lit "//" from ⟨lit "/", rfl⟩).trans (List.prefix_append _ _))
  have hdrop : (lit "//" ++ y).drop 2 = y := rfl
  unfold parseAfterQuery
  simp only [hpre1, hpre2, hdrop, hs, not_true_eq_false, false_and, if_false, ne_eq,
    not_false_eq_true, true_or, and_self, if_true]

/-! ## Properties of `net/url`: `Parse` on the URL that `AuthorizeURL` builds -/

theorem authURL_shape (host q : Str) :
    lit "https://" ++ host ++ lit "/oauth?" ++ q =
      lit "https:" ++ ((lit "//" ++ (host ++ lit "/oauth")) ++ ch '?' :: q) := by
  have e1 : lit "https://" = lit "https:" ++ lit "//" := by decide
  have e2 : lit "/oauth?" = lit "/oauth" ++ [ch '?'] := by decide
  rw [e1, e2]
  simp [List.append_assoc]

theorem authURL_not_suffix (host q : Str) (hq1 : q ≠ []) (hq2 : ch '?' ∉ q) :
    (lit "?").isSuffixOf ((lit "//" ++ (host ++ lit "/oauth")) ++ ch '?' :: q) = false := by
  have := isSuffixOf_single_false (ch '?') ((lit "//" ++ (host ++ lit "/oauth")) ++ [ch '?']) q
    hq1 hq2
  simpa using this

theorem Index_slash_host (host : Str) (h : ch '/' ∉ host) :
    Index (host ++ lit "/oauth") (lit "/") = some host.length :=
  Index_single (ch '/') (lit "oauth") host h

theorem authURL_ctl (host q : Str) (hh : ∀ c ∈ host, isCTL c = false)
    (hq : ∀ b ∈ q, isCTL b = false) :
    stringContainsCTLByte
      (lit "https:" ++ ((lit "//" ++ (host ++ lit "/oauth")) ++ ch '?' :: q)) = false := by
  have hl1 : ∀ x ∈ lit "https:", isCTL x = false := by decide!
  have hl2 : ∀ x ∈ lit "//", isCTL x = false := by decide!
  have hl3 : ∀ x ∈ lit "/oauth", isCTL x = false := by decide!
  have hl4 : isCTL (ch '?') = false := by decide
  unfold stringContainsCTLByte
  rw [List.any_eq_false]
  intro b hb
  have hgoal : isCTL b = false := by
    simp only [List.mem_append, List.mem_cons] at hb
    rcases hb with hb | ((hb | hb | hb) | hb | hb)
    · exact hl1 b hb
    · exact hl2 b hb
    · exact hh b hb
    · exact hl3 b hb
    · exact hb ▸ hl4
    · exact hq b hb
  simpa [isCTL] using hgoal

theorem parse_authURL (host q : Str) (hv : validAPIHost host = true) (hq1 : q ≠ [])
    (hq2 : ∀ b ∈ q, b ≠ ch '#' ∧ b ≠ ch '?' ∧ isCTL b = false) :
    parse (lit "https:" ++ ((lit "//" ++ (host ++ lit "/oauth")) ++ ch '?' :: q)) =
      Except.ok { URL.zero with
        Scheme := lit "https", Host := host, Path := lit "/oauth", RawQuery := q } := by
  have hb := validAPIHost_bytes host hv
  have hctl := authURL_ctl host q (fun c hc => (hostByteOK_facts c (hb c hc)).2.2.2.2.2.1)
    (fun b hb => (hq2 b hb).2.2)
  have hsuf := authURL_not_suffix host q hq1 (fun h => (hq2 _ h).2.1 rfl)
  have hqm : ch '?' ∉ lit "//" ++ (host ++ lit "/oauth") := by
    intro h
    simp only [List.mem_append] at h
    rcases h with h | h | h
    · exact absurd h (by decide)
    · exact (hostByteOK_facts _ (hb _ h)).2.2.1 rfl
    · exact absurd h (by decide)
  have hcut : Cut ((lit "//" ++ (host ++ lit "/oauth")) ++ ch '?' :: q) (lit "?") =
      (lit "//" ++ (host ++ lit "/oauth"), q, true) := Cut_single _ _ _ hqm
  have hidx := Index_slash_host host (fun h => (hostByteOK_facts _ (hb _ h)).2.2.2.1 rfl)
  have htake : (host ++ lit "/oauth").take host.length = host := by simp
  have hdrop : (host ++ lit "/oauth").drop host.length = lit "/oauth" := by simp
  rw [parse_afterQuery _ hctl]
  simp only [hsuf, Bool.false_and, Bool.false_eq_true, if_false, hcut]
  rw [parseAfterQuery_authority _ _ (show lit "https" ≠ [] by decide)]
  simp only [hidx, htake, hdrop, parseAuthority_valid host hv, setPath_oauth, URL.zero]

theorem Parse_authURL (host q : Str) (hv : validAPIHost host = true) (hq1 : q ≠ [])
    (hq2 : ∀ b ∈ q, b ≠ ch '#' ∧ b ≠ ch '?' ∧ isCTL b = false) :
    Parse (lit "https://" ++ host ++ lit "/oauth?" ++ q) =
      Except.ok { URL.zero with
        Scheme := lit "https", Host := host, Path := lit "/oauth", RawQuery := q } := by
  have hb := validAPIHost_bytes host hv
  have hhash : ch '#' ∉ lit "https:" ++ ((lit "//" ++ (host ++ lit "/oauth")) ++ ch '?' :: q) := by
    intro h
    simp only [List.mem_append, List.mem_cons] at h
    rcases h with h | ((h | h | h) | h | h)
    · exact absurd h (by decide)
    · exact absurd h (by decide)
    · exact (hostByteOK_facts _ (hb _ h)).2.1 rfl
    · exact absurd h (by decide)
    · exact absurd h (by decide)
    · exact (hq2 _ h).1 rfl
  rw [authURL_shape]
  unfold Parse
  have hcut : Cut (lit "https:" ++ ((lit "//" ++ (host ++ lit "/oauth")) ++ ch '?' :: q)) (lit "#") =
      (lit "https:" ++ ((lit "//" ++ (host ++ lit "/oauth")) ++ ch '?' :: q), [], false) :=
    Cut_none _ _ hhash
  simp only [hcut, parse_authURL host q hv hq1 hq2, if_true]

/-! ## Properties of `net/url`: what `unescape` and `parseHost` do to the length -/

theorem unescapeWrite_nonpercent (mode : encoding) (c : Byte) (rest : Str) (hc : c ≠ ch '%') :
    unescapeWrite mode (c :: rest) =
      (if c = ch '+' then (if mode = encoding.encodeQueryComponent then ch ' ' else ch '+')
        else c) :: unescapeWrite mode rest := by
  have key : (if c = ch '%' then ([] : Str)
      else if c = ch '+' then
        (if mode = encoding.encodeQueryComponent then ch ' ' else ch '+') :: unescapeWrite mode rest
      else c :: unescapeWrite mode rest) =
      (if c = ch '+' then (if mode = encoding.encodeQueryComponent then ch ' ' else ch '+')
        else c) :: unescapeWrite mode rest := by
    rw [if_neg hc]
    by_cases hp : c = ch '+'
    · rw [if_pos hp, if_pos hp]
    · rw [if_neg hp, if_neg hp]
  rcases rest with _ | ⟨a, _ | ⟨b, r⟩⟩
  · rw [unescapeWrite.eq_3 _ _ _ (by intro _ _ _ h; cases h)]
    exact key
  · rw [unescapeWrite.eq_3 _ _ _ (by intro _ _ _ h; cases h)]
    exact key
  · rw [unescapeWrite.eq_2, if_neg hc]
    by_cases hp : c = ch '+'
    · rw [if_pos hp, if_pos hp]
    · rw [if_neg hp, if_neg hp]

/-- The second loop of `unescape` never writes more than it reads, and writes less
when it reads a `%`. -/
theorem write_length (mode : encoding) : ∀ (n : Nat) (s : Str), s.length = n →
    (unescapeWrite mode s).length ≤ s.length ∧
    (ch '%' ∈ s → (unescapeWrite mode s).length < s.length) := by
  intro n
  induction n using Nat.strong_induction_on with
  | _ n ih =>
    intro s hs
    cases s with
    | nil => simp [unescapeWrite]
    | cons c rest =>
      by_cases hc : c = ch '%'
      · subst hc
        rcases rest with _ | ⟨a, _ | ⟨b, r⟩⟩
        · rw [unescapeWrite.eq_3 _ _ _ (by intro _ _ _ h; cases h)]
          simp
        · rw [unescapeWrite.eq_3 _ _ _ (by intro _ _ _ h; cases h)]
          simp
        · rw [unescapeWrite_percent]
          have h := (ih r.length (by simp at hs; omega) r rfl).1
          simp only [List.length_cons]
          exact ⟨by omega, fun _ => by omega⟩
      · rw [unescapeWrite_nonpercent _ _ _ hc]
        have h := ih rest.length (by simp at hs; omega) rest rfl
        simp only [List.length_cons]
        refine ⟨by omega, fun hm => ?_⟩
        rcases List.mem_cons.1 hm with hm | hm
        · exact absurd hm.symm hc
        · have := h.2 hm
          omega

/-- The first loop of `unescape` counts every `%`. -/
theorem scan_count (mode : encoding) : ∀ (k : Nat) (s : Str), s.length = k →
    ∀ (n0 : Nat) (hp0 : Bool) (n : Nat) (hp : Bool),
      unescapeScan mode s n0 hp0 = Except.ok (n, hp) →
      n0 ≤ n ∧ (ch '%' ∈ s → n0 < n) := by
  intro k
  induction k using Nat.strong_induction_on with
  | _ k ih =>
    intro s hs n0 hp0 n hp h
    cases s with
    | nil =>
      simp only [unescapeScan, Except.ok.injEq, Prod.mk.injEq] at h
      exact ⟨by omega, fun hm => by cases hm⟩
    | cons c rest =>
      by_cases hc : c = ch '%'
      · subst hc
        rcases rest with _ | ⟨a, _ | ⟨b, r⟩⟩
        · rw [unescapeScan.eq_3 _ _ _ _ _ (by intro _ _ _ h; cases h)] at h
          simp at h
        · rw [unescapeScan.eq_3 _ _ _ _ _ (by intro _ _ _ h; cases h)] at h
          simp at h
        · rw [unescapeScan.eq_2] at h
          simp only [if_true] at h
          split at h
          · cases h
          · split at h
            · cases h
            · split at h
              · cases h
              · have := (ih r.length (by simp at hs; omega) r rfl _ _ _ _ h).1
                exact ⟨by omega, fun _ => by omega⟩
      · rw [unescapeScan_nonpercent _ _ _ _ _ hc] at h
        have hrest : ∀ hp1, unescapeScan mode rest n0 hp1 = Except.ok (n, hp) →
            n0 ≤ n ∧ (ch '%' ∈ c :: rest → n0 < n) := by
          intro hp1 h1
          have := ih rest.length (by simp at hs; omega) rest rfl _ _ _ _ h1
          refine ⟨this.1, fun hm => ?_⟩
          rcases List.mem_cons.1 hm with hm | hm
          · exact absurd hm.symm hc
          · exact this.2 hm
        split at h
        · exact hrest _ h
        · split at h
          · cases h
          · exact hrest _ h

theorem unescape_length (mode : encoding) (s r : Str) (h : unescape s mode = Except.ok r) :
    r.length ≤ s.length ∧ (ch '%' ∈ s → r.length < s.length) := by
  unfold unescape at h
  split at h
  · cases h
  · rename_i n hp hscan
    split at h
    · rename_i hcond
      cases h
      refine ⟨le_refl _, fun hm => ?_⟩
      have := (scan_count mode s.length s rfl 0 false n hp hscan).2 hm
      omega
    · cases h
      exact write_length mode s.length s rfl

/-- When the first loop of `unescape` accepts a host without `%`, every byte of it
may stand in a host. -/
theorem scan_bytesOK : ∀ (s : Str) (n0 : Nat) (hp0 : Bool) (res : Nat × Bool),
    unescapeScan encoding.encodeHost s n0 hp0 = Except.ok res → ch '%' ∉ s →
    ∀ c ∈ s, hostByteOK c = true := by
  intro s
  induction s with
  | nil => intro _ _ _ _ _ c hc; cases hc
  | cons a rest ih =>
    intro n0 hp0 res h hper c hc
    have ha : a ≠ ch '%' := fun e => hper (e ▸ List.mem_cons_self _ _)
    have hrest : ch '%' ∉ rest := fun e => hper (List.mem_cons_of_mem _ e)
    rw [unescapeScan_nonpercent _ _ _ _ _ ha] at h
    have hplus : hostByteOK (ch '+') = true := by decide
    split at h
    · rename_i hp
      rcases List.mem_cons.1 hc with hc | hc
      · rw [hc, hp]; exact hplus
      · exact ih _ _ _ h hrest c hc
    · split at h
      · cases h
      · rename_i hcond
        rcases List.mem_cons.1 hc with hc | hc
        · rw [hc]
          unfold hostByteOK
          by_cases h128 : a < 128
          · have : ¬ shouldEscape a encoding.encodeHost = true :=
              fun hs => hcond ⟨Or.inl rfl, h128, hs⟩
            simp [this]
          · have : (128 : Byte) ≤ a := not_lt.1 h128
            simp [this]
        · exact ih _ _ _ h hrest c hc

theorem unescape_host_eq (h : Str) (he : unescape h encoding.encodeHost = Except.ok h) :
    ∀ c ∈ h, hostByteOK c = true := by
  have hper : ch '%' ∉ h := fun hm => by
    have := (unescape_length _ _ _ he).2 hm
    omega
  unfold unescape at he
  split at he
  · cases he
  · rename_i n hp hscan
    exact scan_bytesOK h 0 false (n, hp) hscan hper

theorem Index_some_isPrefix (sep : Str) : ∀ (s : Str) (j : Nat),
    Index s sep = some j → sep <+: s.drop j := by
  intro s
  induction s with
  | nil =>
    intro j h
    unfold Index at h
    split at h
    · rename_i hsep
      cases h
      rw [hsep]
      exact List.nil_prefix
    · cases h
  | cons c cs ih =>
    intro j h
    unfold Index at h
    split at h
    · rename_i hp
      cases h
      exact List.isPrefixOf_iff_prefix.1 hp
    · cases hrec : Index cs sep with
      | none => simp [hrec] at h
      | some i =>
        simp only [hrec, Option.map_some', Option.some.injEq] at h
        subst h
        exact ih i hrec

theorem validAPIHost_intro (a : Str) (hb : ∀ c ∈ a, hostByteOK c = true)
    (hp : hostPortOK a = true) : validAPIHost a = true := by
  unfold validAPIHost
  exact Bool.and_eq_true_iff.2 ⟨List.all_eq_true.2 hb, hp⟩

/-- The host `parseHost` returns is no longer than its argument, and when it is the
argument itself the argument is a valid API host. -/
theorem parseHost_facts (a r : Str) (h : parseHost a = Except.ok r) :
    r.length ≤ a.length ∧ (r = a → validAPIHost a = true) := by
  unfold parseHost at h
  by_cases hbr : (lit "[").isPrefixOf a = true
  · simp only [hbr, if_true] at h
    cases hl : LastIndex a (lit "]") with
    | none => simp [hl] at h
    | some i =>
      simp only [hl] at h
      by_cases hport : validOptionalPort (a.drop (i + 1)) = true
      · simp only [hport, not_true_eq_false, if_false] at h
        have hpo : hostPortOK a = true := by
          unfold hostPortOK
          simp only [hbr, if_true, hl, hport]
        cases hz : Index (a.take i) (lit "%25") with
        | none =>
          simp only [hz] at h
          exact ⟨(unescape_length _ _ _ h).1,
            fun e => validAPIHost_intro a (unescape_host_eq a (e ▸ h)) hpo⟩
        | some zone =>
          simp only [hz] at h
          cases h1 : unescape (a.take zone) encoding.encodeHost with
          | error e => simp [h1] at h
          | ok host1 =>
            simp only [h1] at h
            cases h2 : unescape ((a.take i).drop zone) encoding.encodeZone with
            | error e => simp [h2] at h
            | ok host2 =>
              simp only [h2] at h
              cases h3 : unescape (a.drop i) encoding.encodeHost with
              | error e => simp [h3] at h
              | ok host3 =>
                simp only [h3, Except.ok.injEq] at h
                have hpre := Index_some_isPrefix (lit "%25") (a.take i) zone hz
                have hzl := Index_lt_length (lit "%25") (by decide) (a.take i) zone hz
                have hmem : ch '%' ∈ (a.take i).drop zone :=
                  hpre.subset (by decide)
                have l1 := (unescape_length _ _ _ h1).1
                have l2 := (unescape_length _ _ _ h2).2 hmem
                have l3 := (unescape_length _ _ _ h3).1
                have hlen : r.length < a.length := by
                  rw [← h]
                  simp only [List.length_append, List.length_take, List.length_drop] at *
                  have e3 : (lit "%25").length = 3 := by decide
                  omega
                exact ⟨le_of_lt hlen, fun e => by rw [e] at hlen; exact absurd hlen (lt_irrefl _)⟩
      · simp [hport] at h
  · simp only [hbr, Bool.false_eq_true, if_false] at h
    cases hl : LastIndex a (lit ":") with
    | none =>
      simp only [hl] at h
      have hpo : hostPortOK a = true := by
        unfold hostPortOK
        simp only [hbr, Bool.false_eq_true, if_false, hl]
      exact ⟨(unescape_length _ _ _ h).1,
        fun e => validAPIHost_intro a (unescape_host_eq a (e ▸ h)) hpo⟩
    | some i =>
      simp only [hl] at h
      by_cases hport : validOptionalPort (a.drop i) = true
      · simp only [hport, not_true_eq_false, if_false] at h
        have hpo : hostPortOK a = true := by
          unfold hostPortOK
          simp only [hbr, Bool.false_eq_true, if_false, hl, hport]
        exact ⟨(unescape_length _ _ _ h).1,
          fun e => validAPIHost_intro a (unescape_host_eq a (e ▸ h)) hpo⟩
      · simp [hport] at h

/-- The host `parseAuthority` returns is no longer than the authority, and when the
host is the authority itself there is no user information and the authority
is a valid API host. -/
theorem parseAuthority_facts (a : Str) (user : Option Userinfo) (host : Str)
    (h : parseAuthority a = Except.ok (user, host)) :
    host.length ≤ a.length ∧ (host = a → user = none ∧ validAPIHost a = true) := by
  unfold parseAuthority at h
  cases hl : LastIndex a (lit "@") with
  | none =>
    simp only [hl] at h
    cases hh : parseHost a with
    | error e => simp [hh] at h
    | ok r =>
      simp only [hh, Except.ok.injEq, Prod.mk.injEq] at h
      have := parseHost_facts a r hh
      rw [← h.2]
      exact ⟨this.1, fun e => ⟨h.1.symm, this.2 e⟩⟩
  | some i =>
    simp only [hl] at h
    have hpos : 0 < a.length := by
      unfold LastIndex at hl
      cases hidx : Index a.reverse (lit "@").reverse with
      | none => simp [hidx] at hl
      | some j =>
        have := Index_lt_length (lit "@").reverse (by decide) a.reverse j hidx
        have e1 : (lit "@").reverse.length = 1 := by decide
        simp only [List.length_reverse] at this e1
        rw [e1] at this
        omega
    cases hh : parseHost (a.drop (i + 1)) with
    | error e => simp [hh] at h
    | ok r =>
      simp only [hh] at h
      have hlen : r.length < a.length := by
        have := (parseHost_facts _ r hh).1
        simp only [List.length_drop] at this
        omega
      have hfin : ∀ user1 : Option Userinfo,
          (Except.ok (user1, r) : Except Err (Option Userinfo × Str)) = Except.ok (user, host) →
          host.length ≤ a.length ∧ (host = a → user = none ∧ validAPIHost a = true) := by
        intro user1 he
        simp only [Except.ok.injEq, Prod.mk.injEq] at he
        rw [← he.2]
        exact ⟨le_of_lt hlen, fun e => by rw [e] at hlen; exact absurd hlen (lt_irrefl _)⟩
      split at h
      · cases h
      · split at h
        · split at h
          · cases h
          · exact hfin _ h
        · split at h
          · cases h
          · split at h
            · cases h
            · exact hfin _ h

/-- The host and user of the URL that `parseAfterQuery` returns for a `rest` that
starts with `//` are those of the authority up to the first `/`. -/
theorem parseAfterQuery_host (url1 u : URL) (y : Str) (hs : url1.Scheme ≠ [])
    (h : parseAfterQuery url1 (lit "//" ++ y) = Except.ok u) :
    parseAuthority (match Index y (lit "/") with
      | some i => y.take i
      | none => y) = Except.ok (u.User, u.Host) := by
  rw [parseAfterQuery_authority _ _ hs] at h
  split at h
  · cases h
  · rename_i user host hauth
    have := setPath_keeps _ _ _ h
    rw [hauth, this.1, this.2]

theorem parseAfterQuery_host_length (url1 u : URL) (y : Str) (hs : url1.Scheme ≠ [])
    (h : parseAfterQuery url1 (lit "//" ++ y) = Except.ok u) :
    u.Host.length ≤ y.length := by
  have hauth := parseAfterQuery_host url1 u y hs h
  have hlen := (parseAuthority_facts _ _ _ hauth).1
  refine le_trans hlen ?_
  split
  · simp only [List.length_take]; omega
  · exact le_refl _

/-! ## Properties of `net/url`: a host that `Parse` keeps is a valid API host -/

theorem Index_append_left (c : Byte) (z : Str) : ∀ p : Str, c ∉ p →
    Index (p ++ z) [c] = (Index z [c]).map (· + p.length) := by
  intro p
  induction p with
  | nil => intro _; simp
  | cons x p ih =>
    intro h
    have hx : ¬ c = x := fun e => h (e ▸ List.mem_cons_self _ _)
    have hp : c ∉ p := fun e => h (List.mem_cons_of_mem _ e)
    have hpre : [c].isPrefixOf (x :: (p ++ z)) = false := by simp [List.isPrefixOf, hx]
    rw [List.cons_append, Index, hpre, ih hp]
    cases Index z [c] <;> simp [Nat.add_assoc]

theorem Cut_append_left (c : Byte) (p z : Str) (h : c ∉ p) :
    (Cut (p ++ z) [c]).1 = p ++ (Cut z [c]).1 := by
  unfold Cut
  rw [Index_append_left c z p h]
  cases Index z [c] with
  | none => simp
  | some i =>
    simp only [Option.map_some']
    rw [Nat.add_comm, List.take_append]

theorem Cut_fst_length (s sep : Str) : (Cut s sep).1.length ≤ s.length := by
  unfold Cut
  cases Index s sep with
  | none => exact le_refl _
  | some i => simp only [List.length_take]; omega

/-- The host of a URL `https://z` is no longer than `z`. -/
theorem parse_host_length (z : Str) (u : URL)
    (h : parse (lit "https:" ++ (lit "//" ++ z)) = Except.ok u) : u.Host.length ≤ z.length := by
  by_cases hctl : stringContainsCTLByte (lit "https:" ++ (lit "//" ++ z)) = true
  · rw [parse_ctl _ hctl] at h
    cases h
  · have hctl : stringContainsCTLByte (lit "https:" ++ (lit "//" ++ z)) = false := by
      simpa using hctl
    rw [parse_afterQuery _ hctl] at h
    split at h
    · rename_i hforce
      have hsuf : (lit "?").isSuffixOf (lit "//" ++ z) = true :=
        (Bool.and_eq_true_iff.1 hforce).1
      have hz : z ≠ [] := by
        intro e
        rw [e] at hsuf
        exact absurd hsuf (by decide)
      have hzl : 0 < z.length := List.length_pos.2 hz
      have htake : (lit "//" ++ z).take ((lit "//" ++ z).length - 1) =
          lit "//" ++ z.take (z.length - 1) := by
        have e2 : (lit "//").length = 2 := by decide
        rw [List.take_append_eq_append_take]
        simp only [List.length_append, e2]
        have e3 : 2 + z.length - 1 - 2 = z.length - 1 := by omega
        have e4 : (lit "//").take (2 + z.length - 1) = lit "//" := by
          apply List.take_of_length_le
          rw [e2]; omega
        rw [e3, e4]
      rw [htake] at h
      have := parseAfterQuery_host_length _ u _ (show lit "https" ≠ [] by decide) h
      simp only [List.length_take] at this
      omega
    · have hcut : (Cut (lit "//" ++ z) (lit "?")).1 = lit "//" ++ (Cut z (lit "?")).1 :=
        Cut_append_left (ch '?') (lit "//") z (by decide)
      rw [hcut] at h
      have := parseAfterQuery_host_length _ u _ (show lit "https" ≠ [] by decide) h
      exact le_trans this (Cut_fst_length _ _)

/-- When `Parse` returns, for the URL that `AuthorizeURL` builds, a URL whose host is
the API host, the API host is a valid API host. -/
theorem Parse_authURL_converse (host q : Str) (hq1 : q ≠ [])
    (hq2 : ∀ b ∈ q, b ≠ ch '#' ∧ b ≠ ch '?' ∧ isCTL b = false) (u : URL)
    (h : Parse (lit "https://" ++ host ++ lit "/oauth?" ++ q) = Except.ok u)
    (hh : u.Host = host) : validAPIHost host = true := by
  rw [authURL_shape] at h
  by_cases hhash : ch '#' ∈ host
  · -- the fragment starts inside the host
    obtain ⟨h1, h2, hsplit, hh1⟩ := List.eq_append_cons_of_mem hhash
    have hshape : lit "https:" ++ ((lit "//" ++ (host ++ lit "/oauth")) ++ ch '?' :: q) =
        (lit "https:" ++ (lit "//" ++ h1)) ++ ch '#' :: (h2 ++ lit "/oauth" ++ ch '?' :: q) := by
      rw [hsplit]; simp [List.append_assoc]
    have hnot : ch '#' ∉ lit "https:" ++ (lit "//" ++ h1) := by
      intro hm
      simp only [List.mem_append] at hm
      rcases hm with hm | hm | hm
      · exact absurd hm (by decide)
      · exact absurd hm (by decide)
      · exact hh1 hm
    rw [hshape] at h
    unfold Parse at h
    have hcut : Cut ((lit "https:" ++ (lit "//" ++ h1)) ++ ch '#' ::
        (h2 ++ lit "/oauth" ++ ch '?' :: q)) (lit "#") =
        (lit "https:" ++ (lit "//" ++ h1), h2 ++ lit "/oauth" ++ ch '?' :: q, true) :=
      Cut_single _ _ _ hnot
    simp only [hcut] at h
    cases hp : parse (lit "https:" ++ (lit "//" ++ h1)) with
    | error e => rw [hp] at h; cases h
    | ok url =>
      rw [hp] at h
      simp only at h
      have hlen := parse_host_length h1 url hp
      have hfrag : ¬ (h2 ++ lit "/oauth" ++ ch '?' :: q = []) := by simp
      simp only [hfrag, if_false] at h
      cases hf : URL.setFragment url (h2 ++ lit "/oauth" ++ ch '?' :: q) with
      | error e => rw [hf] at h; cases h
      | ok url1 =>
        rw [hf] at h
        simp only [Except.ok.injEq] at h
        have hk := (setFragment_keeps _ _ _ hf).1
        rw [h] at hk
        have : host.length ≤ h1.length := by rw [← hh, hk]; exact hlen
        rw [hsplit] at this
        simp only [List.length_append, List.length_cons] at this
        omega
  · have hnot : ch '#' ∉
        lit "https:" ++ ((lit "//" ++ (host ++ lit "/oauth")) ++ ch '?' :: q) := by
      intro hm
      simp only [List.mem_append, List.mem_cons] at hm
      rcases hm with hm | ((hm | hm | hm) | hm | hm)
      · exact absurd hm (by decide)
      · exact absurd hm (by decide)
      · exact hhash hm
      · exact absurd hm (by decide)
      · exact absurd hm (by decide)
      · exact (hq2 _ hm).1 rfl
    unfold Parse at h
    have hcut : Cut (lit "https:" ++ ((lit "//" ++ (host ++ lit "/oauth")) ++ ch '?' :: q))
        (lit "#") =
        (lit "https:" ++ ((lit "//" ++ (host ++ lit "/oauth")) ++ ch '?' :: q), [], false) :=
      Cut_none _ _ hnot
    simp only [hcut, if_true] at h
    cases hp : parse (lit "https:" ++ ((lit "//" ++ (host ++ lit "/oauth")) ++ ch '?' :: q)) with
    | error e => rw [hp] at h; cases h
    | ok url =>
      rw [hp] at h
      simp only [Except.ok.injEq] at h
      subst h
      by_cases hctl : stringContainsCTLByte
          (lit "https:" ++ ((lit "//" ++ (host ++ lit "/oauth")) ++ ch '?' :: q)) = true
      · rw [parse_ctl _ hctl] at hp
        cases hp
      · have hctl : stringContainsCTLByte
            (lit "https:" ++ ((lit "//" ++ (host ++ lit "/oauth")) ++ ch '?' :: q)) = false := by
          simpa using hctl
        have hsuf := authURL_not_suffix host q hq1 (fun hm => (hq2 _ hm).2.1 rfl)
        rw [parse_afterQuery _ hctl] at hp
        simp only [hsuf, Bool.false_and, Bool.false_eq_true, if_false] at hp
        by_cases hqm : ch '?' ∈ host
        · -- the query starts inside the host
          obtain ⟨h1, h2, hsplit, hh1⟩ := List.eq_append_cons_of_mem hqm
          have hshape : (lit "//" ++ (host ++ lit "/oauth")) ++ ch '?' :: q =
              (lit "//" ++ h1) ++ ch '?' :: (h2 ++ lit "/oauth" ++ ch '?' :: q) := by
            rw [hsplit]; simp [List.append_assoc]
          have hn : ch '?' ∉ lit "//" ++ h1 := by
            intro hm
            rcases List.mem_append.1 hm with hm | hm
            · exact absurd hm (by decide)
            · exact hh1 hm
          have hcutq : Cut ((lit "//" ++ h1) ++ ch '?' :: (h2 ++ lit "/oauth" ++ ch '?' :: q))
              (lit "?") = (lit "//" ++ h1, h2 ++ lit "/oauth" ++ ch '?' :: q, true) :=
            Cut_single _ _ _ hn
          rw [hshape] at hp
          simp only [hcutq] at hp
          have hlen := parseAfterQuery_host_length _ url _ (show lit "https" ≠ [] by decide) hp
          rw [hh, hsplit] at hlen
          simp only [List.length_append, List.length_cons] at hlen
          omega
        · have hn : ch '?' ∉ lit "//" ++ (host ++ lit "/oauth") := by
            intro hm
            simp only [List.mem_append] at hm
            rcases hm with hm | hm | hm
            · exact absurd hm (by decide)
            · exact hqm hm
            · exact absurd hm (by decide)
          have hcutq : Cut ((lit "//" ++ (host ++ lit "/oauth")) ++ ch '?' :: q) (lit "?") =
              (lit "//" ++ (host ++ lit "/oauth"), q, true) := Cut_single _ _ _ hn
          simp only [hcutq] at hp
          have hauth := parseAfterQuery_host _ url _ (show lit "https" ≠ [] by decide) hp
          by_cases hsl : ch '/' ∈ host
          · -- the path starts inside the host
            obtain ⟨h1, h2, hsplit, hh1⟩ := List.eq_append_cons_of_mem hsl
            have hshape : host ++ lit "/oauth" = h1 ++ ch '/' :: (h2 ++ lit "/oauth") := by
              rw [hsplit]; simp [List.append_assoc]
            have hidx : Index (h1 ++ ch '/' :: (h2 ++ lit "/oauth")) (lit "/") = some h1.length :=
              Index_single _ _ _ hh1
            rw [hshape] at hauth
            simp only [hidx] at hauth
            have hlen := (parseAuthority_facts _ _ _ hauth).1
            rw [hh, hsplit] at hlen
            simp only [List.length_append, List.length_cons, List.length_take] at hlen
            omega
          · have hidx := Index_slash_host host hsl
            simp only [hidx] at hauth
            have htake : (host ++ lit "/oauth").take host.length = host := by simp
            rw [htake] at hauth
            exact ((parseAuthority_facts _ _ _ hauth).2 hh).2

/-! ## Properties of `AuthorizeURL` -/

theorem authorize_query_bytes (mode state clientID : Str) :
    ∀ b ∈ Values.Encode
        [(lit "mode", [mode]), (lit "state", [state]), (lit "client_id", [clientID])],
      b ≠ ch '#' ∧ b ≠ ch '?' ∧ isCTL b = false := by
  have hsafe : ∀ (s : Str) (b : Byte), b ∈ QueryEscape s →
      b ≠ ch '#' ∧ b ≠ ch '?' ∧ isCTL b = false := by
    intro s b hb
    have h := querySafe_not_separator b (QueryEscape_querySafe s b hb)
    exact ⟨h.2.2.2.2.1, h.2.2.2.1, h.2.2.2.2.2⟩
  have heq : ch '=' ≠ ch '#' ∧ ch '=' ≠ ch '?' ∧ isCTL (ch '=') = false := by decide
  have hamp : ch '&' ≠ ch '#' ∧ ch '&' ≠ ch '?' ∧ isCTL (ch '&') = false := by decide
  intro b hb
  rw [Encode_authorize] at hb
  simp only [List.mem_append, List.mem_cons] at hb
  rcases hb with (hb | hb | hb) | hb | (hb | hb | hb) | hb | hb | hb | hb
  · exact hsafe _ b hb
  · exact hb ▸ heq
  · exact hsafe _ b hb
  · exact hb ▸ hamp
  · exact hsafe _ b hb
  · exact hb ▸ heq
  · exact hsafe _ b hb
  · exact hb ▸ hamp
  · exact hsafe _ b hb
  · exact hb ▸ heq
  · exact hsafe _ b hb

theorem authorize_query_parsed (mode state clientID : Str) :
    ParseQuery (Values.Encode
        [(lit "mode", [mode]), (lit "state", [state]), (lit "client_id", [clientID])]) =
      ([(lit "client_id", [clientID]), (lit "mode", [mode]), (lit "state", [state])], none) := by
  rw [Encode_authorize]
  unfold ParseQuery
  have hlen : ∀ (a b : Str), ((a ++ ch '&' :: (b ++ ch '&' :: ([] : Str))).length + 1) =
      (a.length + b.length) + 3 := by
    intro a b; simp; omega
  generalize hq : (QueryEscape (lit "client_id") ++ ch '=' :: QueryEscape clientID) ++ ch '&' ::
        ((QueryEscape (lit "mode") ++ ch '=' :: QueryEscape mode) ++ ch '&' ::
          (QueryEscape (lit "state") ++ ch '=' :: QueryEscape state)) = q
  have hfuel : ∃ fuel, q.length + 1 = fuel + 3 := by
    refine ⟨q.length - 2, ?_⟩
    have : 2 ≤ q.length := by rw [← hq]; simp; omega
    omega
  rcases hfuel with ⟨fuel, hfuel⟩
  rw [hfuel, ← hq, parseQueryLoop_pair, parseQueryLoop_pair, parseQueryLoop_last]
  have hne1 : ¬ (lit "client_id" = lit "mode") := by decide
  have hne2 : ¬ (lit "client_id" = lit "state") := by decide
  have hne3 : ¬ (lit "mode" = lit "state") := by decide
  simp [Values.append, hne1, hne2, hne3]

/-- C1. Whenever `state` is empty or `mode` is neither `PostMessageMode` nor
`PopupMode`, `AuthorizeURL` returns an error and no URL: `empty state` for an
empty state, `unexpected mode` otherwise.  The result is the same for every
client, so it is decided from the two arguments alone; the function takes no
token store and no network, it returns before `Values.Encode` and `url.Parse`
are reached. -/
theorem AuthorizeURL_rejects (PostMessageMode PopupMode : Str) (a : amoCRM) (state mode : Str)
    (h : state = [] ∨ (mode ≠ PostMessageMode ∧ mode ≠ PopupMode)) :
    a.AuthorizeURL PostMessageMode PopupMode state mode =
        Except.error (if state = [] then Err.oauth2Err (lit "empty state")
          else Err.oauth2Err (lit "unexpected mode")) ∧
    ∀ b : amoCRM, b.AuthorizeURL PostMessageMode PopupMode state mode =
      a.AuthorizeURL PostMessageMode PopupMode state mode := by
  have key : ∀ c : amoCRM, c.AuthorizeURL PostMessageMode PopupMode state mode =
      Except.error (if state = [] then Err.oauth2Err (lit "empty state")
        else Err.oauth2Err (lit "unexpected mode")) := by
    intro c
    unfold amoCRM.AuthorizeURL
    by_cases hs : state = []
    · simp [hs]
    · rcases h with h | h
      · exact absurd h hs
      · simp [hs, h.1, h.2]
  exact ⟨key a, fun b => (key b).trans (key a).symm⟩

/-- C1 at concrete inputs: an empty state, and the mode `redirect`. -/
theorem AuthorizeURL_rejects_witness :
    (demoClient "www.amocrm.ru").AuthorizeURL (lit "post_message") (lit "popup") [] (lit "popup") =
      Except.error (Err.oauth2Err (lit "empty state")) ∧
    (demoClient "www.amocrm.ru").AuthorizeURL (lit "post_message") (lit "popup") (lit "s")
        (lit "redirect") =
      Except.error (Err.oauth2Err (lit "unexpected mode")) :=
  ⟨(AuthorizeURL_rejects (lit "post_message") (lit "popup") (demoClient "www.amocrm.ru") []
      (lit "popup") (Or.inl rfl)).1,
   (AuthorizeURL_rejects (lit "post_message") (lit "popup") (demoClient "www.amocrm.ru") (lit "s")
      (lit "redirect") (Or.inr (by decide))).1⟩

/-- C2 as stated fails: with the API host `a?b` (set through `SetAPIHost`, which
accepts any string) and the well-formed pair state `s`, mode `popup`,
`AuthorizeURL` returns a URL whose host is `a`, whose path is empty and whose
query parameters have the key `b/oauth?client_id` and no key `client_id`; with
the API host `a b` it returns an error. -/
theorem AuthorizeURL_hostile_host :
    (demoClient "a?b").AuthorizeURL (lit "post_message") (lit "popup") (lit "s") (lit "popup") =
      Except.ok hostileURL ∧
    hostileURL.Host = lit "a" ∧ hostileURL.Path = [] ∧
    hostileURL.Query =
      [(lit "b/oauth?client_id", [lit "my-id"]), (lit "mode", [lit "popup"]),
       (lit "state", [lit "s"])] ∧
    (demoClient "a b").AuthorizeURL (lit "post_message") (lit "popup") (lit "s") (lit "popup") =
      Except.error (Err.urlError (lit "parse")
        (lit "https://a b/oauth?client_id=my-id&mode=popup&state=s")
        (Err.InvalidHostError (lit " "))) := by
  refine ⟨?_, ?_, ?_, ?_, ?_⟩ <;> rfl

/-- C2, amended. For every client and every well-formed pair (state non-empty, mode
equal to `PostMessageMode` or `PopupMode`): when the API host is a valid API
host (every ASCII byte of it may stand in a host, so it holds no `/`, `?`, `#`,
`@`, `%`, space or control byte, and its port is well formed), `AuthorizeURL`
succeeds and returns the URL with scheme `https`, host the API host, path
`/oauth`, no user information, no fragment, and query parameters exactly
`client_id`, `mode` and `state`, each with the single value `a.api.clientID`,
the given mode and the given state; for every other API host it returns no URL
whose host is the API host; and
`a.api.clientID` is the client id given to `New` or `NewWithStorage`, also
after `SetAPIHost`. -/
theorem AuthorizeURL_valid_host (PostMessageMode PopupMode : Str) (a : amoCRM) (state mode : Str)
    (hstate : state ≠ []) (hmode : mode = PostMessageMode ∨ mode = PopupMode) :
    (validAPIHost a.api.APIHost = true →
      ∃ u : URL, a.AuthorizeURL PostMessageMode PopupMode state mode = Except.ok u ∧
        u.Scheme = lit "https" ∧ u.Opaque = [] ∧ u.User = none ∧ u.Host = a.api.APIHost ∧
        u.Path = lit "/oauth" ∧ u.Fragment = [] ∧
        u.Query =
          [(lit "client_id", [a.api.clientID]), (lit "mode", [mode]), (lit "state", [state])]) ∧
    ((∃ u : URL, a.AuthorizeURL PostMessageMode PopupMode state mode = Except.ok u ∧
        u.Host = a.api.APIHost) →
      validAPIHost a.api.APIHost = true) ∧
    (∀ (defaultAPIHost clientID clientSecret redirectURL apiHost : Str),
      (New defaultAPIHost clientID clientSecret redirectURL).api.clientID = clientID ∧
      ((New defaultAPIHost clientID clientSecret redirectURL).SetAPIHost apiHost).api.clientID =
        clientID) ∧
    (∀ (defaultAPIHost : Str) (tokenStorage : TokenStorage)
        (clientID clientSecret redirectURL apiHost : Str),
      (NewWithStorage defaultAPIHost tokenStorage clientID clientSecret redirectURL).api.clientID =
        clientID ∧
      ((NewWithStorage defaultAPIHost tokenStorage clientID clientSecret redirectURL).SetAPIHost
        apiHost).api.clientID = clientID) := by
  have hq1 : Values.Encode
      [(lit "mode", [mode]), (lit "state", [state]), (lit "client_id", [a.api.clientID])] ≠ [] := by
    rw [Encode_authorize]; simp
  have hq2 := authorize_query_bytes mode state a.api.clientID
  have hm : ¬ (mode ≠ PostMessageMode ∧ mode ≠ PopupMode) := by
    rintro ⟨h1, h2⟩
    rcases hmode with h | h
    · exact h1 h
    · exact h2 h
  have hrun : a.AuthorizeURL PostMessageMode PopupMode state mode =
      Parse (lit "https://" ++ a.api.APIHost ++ lit "/oauth?" ++ Values.Encode
        [(lit "mode", [mode]), (lit "state", [state]), (lit "client_id", [a.api.clientID])]) := by
    unfold amoCRM.AuthorizeURL
    simp only [hstate, hm, if_false]
  refine ⟨?_, ?_, fun _ _ _ _ _ => ⟨rfl, rfl⟩, fun _ _ _ _ _ _ => ⟨rfl, rfl⟩⟩
  · intro hhost
    refine ⟨{ URL.zero with
        Scheme := lit "https", Host := a.api.APIHost, Path := lit "/oauth",
        RawQuery := Values.Encode
          [(lit "mode", [mode]), (lit "state", [state]), (lit "client_id", [a.api.clientID])] },
      ?_, rfl, rfl, rfl, rfl, rfl, rfl, ?_⟩
    · rw [hrun]
      exact Parse_authURL _ _ hhost hq1 hq2
    · show (ParseQuery _).1 = _
      rw [authorize_query_parsed]
  · rintro ⟨u, hu, hhost⟩
    rw [hrun] at hu
    exact Parse_authURL_converse _ _ hq1 hq2 u hu hhost

/-- C2, amended, at concrete inputs: state `a b&c` with the API hosts
`www.amocrm.ru`, `localhost:8080`, `127.0.0.1:44321`, `[::1]:8080` and
`my_host.example`, for which `AuthorizeURL` returns the URL of the claim, and
with the API host `a/b`, for which it does not. -/
theorem AuthorizeURL_valid_host_witness :
    authorizeOK "www.amocrm.ru" ∧ authorizeOK "localhost:8080" ∧
    authorizeOK "127.0.0.1:44321" ∧ authorizeOK "[::1]:8080" ∧
    authorizeOK "my_host.example" ∧
    ¬ (∃ u : URL, (demoClient "a/b").AuthorizeURL (lit "post_message") (lit "popup")
        (lit "a b&c") (lit "popup") = Except.ok u ∧ u.Host = lit "a/b") :=
  ⟨(AuthorizeURL_valid_host (lit "post_message") (lit "popup") (demoClient "www.amocrm.ru")
      (lit "a b&c") (lit "popup") (by decide) (Or.inr rfl)).1 (by decide!),
   (AuthorizeURL_valid_host (lit "post_message") (lit "popup") (demoClient "localhost:8080")
      (lit "a b&c") (lit "popup") (by decide) (Or.inr rfl)).1 (by decide!),
   (AuthorizeURL_valid_host (lit "post_message") (lit "popup") (demoClient "127.0.0.1:44321")
      (lit "a b&c") (lit "popup") (by decide) (Or.inr rfl)).1 (by decide!),
   (AuthorizeURL_valid_host (lit "post_message") (lit "popup") (demoClient "[::1]:8080")
      (lit "a b&c") (lit "popup") (by decide) (Or.inr rfl)).1 (by decide!),
   (AuthorizeURL_valid_host (lit "post_message") (lit "popup") (demoClient "my_host.example")
      (lit "a b&c") (lit "popup") (by decide) (Or.inr rfl)).1 (by decide!),
   fun h => absurd
     ((AuthorizeURL_valid_host (lit "post_message") (lit "popup") (demoClient "a/b")
        (lit "a b&c") (lit "popup") (by decide) (Or.inr rfl)).2.1 h)
     (by decide!)⟩

/-! ## Properties of the authorization entry points -/

/-- C3. When `loadToken` returns a token, `LoadTokenOrAuthorize(code)` calls
`loadToken` and then `setToken` with exactly that token, makes no exchange
call, and returns what `setToken` returns.  When `loadToken` returns nil
without error it makes exactly one exchange call, `getToken` with the
authorization-code grant, `code` set to the supplied code and `grant_type`
`authorization_code`; if the exchange returns a token it calls `setToken` with
exactly that token and returns its result, and if the exchange fails it
returns that error and installs nothing. -/
theorem LoadTokenOrAuthorize_flow {ω : Type} (m : apiMethods ω) (authCode : Str) (s : St ω) :
    (∀ (token : Token) (w : ω), m.loadToken s.world = (Except.ok (some token), w) →
      LoadTokenOrAuthorize m authCode s =
        ((m.setToken token w).1,
          { world := (m.setToken token w).2,
            calls := s.calls ++ [Call.loadToken, Call.setToken token] })) ∧
    (∀ (w : ω), m.loadToken s.world = (Except.ok none, w) →
      let options : Values := [(lit "code", [authCode]), (lit "grant_type", [lit "authorization_code"])]
      let exchange := m.getToken grantType.authorizationCodeGrant options none w
      (∀ token : Token, exchange.1 = Except.ok token →
        LoadTokenOrAuthorize m authCode s =
          ((m.setToken token exchange.2).1,
            { world := (m.setToken token exchange.2).2,
              calls := s.calls ++ [Call.loadToken,
                Call.getToken grantType.authorizationCodeGrant options none,
                Call.setToken token] })) ∧
      (∀ err : Err, exchange.1 = Except.error err →
        LoadTokenOrAuthorize m authCode s =
          (some err,
            { world := exchange.2,
              calls := s.calls ++ [Call.loadToken,
                Call.getToken grantType.authorizationCodeGrant options none] }))) := by
  refine ⟨?_, ?_⟩
  · intro token w h
    simp [LoadTokenOrAuthorize, api.loadToken, api.setToken, h]
  · intro w h
    refine ⟨?_, ?_⟩
    · intro token hx
      simp [LoadTokenOrAuthorize, TokenByCode, api.loadToken, api.getToken, api.setToken, h, hx]
    · intro err hx
      simp [LoadTokenOrAuthorize, TokenByCode, api.loadToken, api.getToken, api.setToken, h, hx]

/-- C3 at concrete inputs: a store holding token `stored` (installed without any
exchange), and an empty store with an exchange answering token `fresh`. -/
theorem LoadTokenOrAuthorize_flow_witness :
    LoadTokenOrAuthorize (demoMethods (some (demoToken "stored")) (Except.error (Err.other 1)))
        (lit "code-1") { world := none, calls := [] } =
      (none, { world := some (demoToken "stored"),
               calls := [Call.loadToken, Call.setToken (demoToken "stored")] }) ∧
    LoadTokenOrAuthorize (demoMethods none (Except.ok (demoToken "fresh")))
        (lit "code-1") { world := none, calls := [] } =
      (none, { world := some (demoToken "fresh"),
               calls := [Call.loadToken,
                 Call.getToken grantType.authorizationCodeGrant
                   [(lit "code", [lit "code-1"]), (lit "grant_type", [lit "authorization_code"])]
                   none,
                 Call.setToken (demoToken "fresh")] }) :=
  ⟨(LoadTokenOrAuthorize_flow (demoMethods (some (demoToken "stored")) (Except.error (Err.other 1)))
      (lit "code-1") { world := none, calls := [] }).1 (demoToken "stored") none rfl,
   ((LoadTokenOrAuthorize_flow (demoMethods none (Except.ok (demoToken "fresh")))
      (lit "code-1") { world := none, calls := [] }).2 none rfl).1 (demoToken "fresh") rfl⟩

/-- C4. When `loadToken` returns nil without error, `LoadTokenAndAuthorize` fails
with the error `invalid token`, calls nothing but `loadToken` (so `setToken` is
never called) and leaves the world as `loadToken` left it; and on every path
the calls it makes are `loadToken` alone or `loadToken` followed by one
`setToken`, never `getToken` or `do`. -/
theorem LoadTokenAndAuthorize_flow {ω : Type} (m : apiMethods ω) (s : St ω) :
    (∀ w : ω, m.loadToken s.world = (Except.ok none, w) →
      LoadTokenAndAuthorize m s =
        (some (Err.errorsNew (lit "invalid token")),
          { world := w, calls := s.calls ++ [Call.loadToken] })) ∧
    (∃ made : List Call, (LoadTokenAndAuthorize m s).2.calls = s.calls ++ made ∧
      (∀ c ∈ made, c.isNetwork = false ∧ c.isExchange = false) ∧
      (made = [Call.loadToken] ∨ ∃ token, made = [Call.loadToken, Call.setToken token])) := by
  refine ⟨?_, ?_⟩
  · intro w h
    simp [LoadTokenAndAuthorize, api.loadToken, h]
  · rcases h : m.loadToken s.world with ⟨r, w⟩
    rcases r with err | token
    · refine ⟨[Call.loadToken], ?_, ?_, Or.inl rfl⟩
      · simp [LoadTokenAndAuthorize, api.loadToken, h]
      · intro c hc
        simp at hc
        subst hc
        exact ⟨rfl, rfl⟩
    · cases token with
      | none =>
        refine ⟨[Call.loadToken], ?_, ?_, Or.inl rfl⟩
        · simp [LoadTokenAndAuthorize, api.loadToken, h]
        · intro c hc
          simp at hc
          subst hc
          exact ⟨rfl, rfl⟩
      | some token =>
        refine ⟨[Call.loadToken, Call.setToken token], ?_, ?_, Or.inr ⟨token, rfl⟩⟩
        · simp [LoadTokenAndAuthorize, api.loadToken, api.setToken, h]
        · intro c hc
          simp at hc
          rcases hc with hc | hc <;> subst hc <;> exact ⟨rfl, rfl⟩

/-- C4 at a concrete input: an empty store, with token `old` installed before. -/
theorem LoadTokenAndAuthorize_flow_witness :
    LoadTokenAndAuthorize (demoMethods none (Except.ok (demoToken "fresh")))
        { world := some (demoToken "old"), calls := [] } =
      (some (Err.errorsNew (lit "invalid token")),
        { world := some (demoToken "old"), calls := [Call.loadToken] }) :=
  (LoadTokenAndAuthorize_flow (demoMethods none (Except.ok (demoToken "fresh")))
    { world := some (demoToken "old"), calls := [] }).1 (some (demoToken "old")) rfl

/-! ## Properties of `sort.SliceStable` with a comparison of integer keys -/

section StableSort
variable {α : Type} (f : α → Int)

theorem insertBack_perm (x : α) (acc : List α) :
    (insertBack (fun a b => decide (f a < f b)) x acc).Perm (x :: acc) := by
  induction acc with
  | nil => exact List.Perm.refl _
  | cons y ys ih =>
    unfold insertBack
    split
    · exact (List.Perm.cons y ih).trans (List.Perm.swap x y ys)
    · exact List.Perm.refl _

theorem sortLoop_perm (xs : List α) : ∀ acc : List α,
    (sortLoop (fun a b => decide (f a < f b)) xs acc).Perm (acc ++ xs) := by
  induction xs with
  | nil => intro acc; simp [sortLoop]
  | cons x xs ih =>
    intro acc
    unfold sortLoop
    refine (ih _).trans ?_
    refine (List.Perm.append_right xs (insertBack_perm f x acc)).trans ?_
    simpa using (@List.perm_middle _ x acc xs).symm

theorem insertBack_descending (x : α) (acc : List α)
    (h : acc.Pairwise (fun a b => f b ≤ f a)) :
    (insertBack (fun a b => decide (f a < f b)) x acc).Pairwise (fun a b => f b ≤ f a) := by
  induction acc with
  | nil => simp [insertBack]
  | cons y ys ih =>
    rcases List.pairwise_cons.1 h with ⟨hy, hys⟩
    unfold insertBack
    split
    · rename_i hlt
      have hlt : f x < f y := by simpa using hlt
      refine List.pairwise_cons.2 ⟨?_, ih hys⟩
      intro z hz
      rcases List.mem_cons.1 ((insertBack_perm f x ys).mem_iff.1 hz) with hz | hz
      · rw [hz]; exact le_of_lt hlt
      · exact hy z hz
    · rename_i hlt
      have hle : f y ≤ f x := by simpa using hlt
      refine List.pairwise_cons.2 ⟨?_, h⟩
      intro z hz
      rcases List.mem_cons.1 hz with hz | hz
      · rw [hz]; exact hle
      · exact le_trans (hy z hz) hle

theorem sortLoop_sorted (xs : List α) : ∀ acc : List α,
    acc.Pairwise (fun a b => f b ≤ f a) →
    (sortLoop (fun a b => decide (f a < f b)) xs acc).Pairwise (fun a b => f a ≤ f b) := by
  induction xs with
  | nil => intro acc h; simpa [sortLoop, List.pairwise_reverse] using h
  | cons x xs ih =>
    intro acc h
    unfold sortLoop
    exact ih _ (insertBack_descending f x acc h)

theorem insertBack_filter (k : Int) (x : α) (acc : List α) :
    (insertBack (fun a b => decide (f a < f b)) x acc).filter (fun a => decide (f a = k)) =
      (x :: acc).filter (fun a => decide (f a = k)) := by
  induction acc with
  | nil => rfl
  | cons y ys ih =>
    unfold insertBack
    split
    · rename_i hlt
      have hlt : f x < f y := by simpa using hlt
      by_cases hy : f y = k
      · have hx : f x ≠ k := fun hx => absurd hlt (by rw [hx, hy]; exact lt_irrefl k)
        simp [List.filter_cons, hy, hx] at ih ⊢
        exact ih
      · by_cases hx : f x = k
        · simp [List.filter_cons, hy, hx] at ih ⊢
          exact ih
        · simp [List.filter_cons, hy, hx] at ih ⊢
          exact ih
    · rfl

theorem sortLoop_filter (k : Int) (xs : List α) : ∀ acc : List α,
    (sortLoop (fun a b => decide (f a < f b)) xs acc).filter (fun a => decide (f a = k)) =
      (acc.filter (fun a => decide (f a = k))).reverse ++ xs.filter (fun a => decide (f a = k)) := by
  induction xs with
  | nil => intro acc; simp [sortLoop, List.filter_reverse]
  | cons x xs ih =>
    intro acc
    unfold sortLoop
    rw [ih, insertBack_filter]
    by_cases hx : f x = k <;> simp [List.filter_cons, hx]

theorem SliceStable_perm (l : List α) :
    (SliceStable (fun a b => decide (f a < f b)) l).Perm l := by
  simpa [SliceStable] using sortLoop_perm f l []

theorem SliceStable_sorted (l : List α) :
    (SliceStable (fun a b => decide (f a < f b)) l).Pairwise (fun a b => f a ≤ f b) :=
  sortLoop_sorted f l [] List.Pairwise.nil

theorem SliceStable_stable (k : Int) (l : List α) :
    (SliceStable (fun a b => decide (f a < f b)) l).filter (fun a => decide (f a = k)) =
      l.filter (fun a => decide (f a = k)) := by
  simpa [SliceStable] using sortLoop_filter f k l []

theorem filter_key_eq_nil_of_forall (l : List α) (h : ∀ k : Int, l.filter (fun a => decide (f a = k)) = []) :
    l = [] := by
  cases l with
  | nil => rfl
  | cons y t =>
    have := h (f y)
    simp [List.filter_cons] at this

/-- Two lists in ascending order of the key whose elements of each key are the same
and in the same order are equal: the result of a stable sort is unique. -/
theorem stable_sorted_unique : ∀ (l1 l2 : List α),
    l1.Pairwise (fun a b => f a ≤ f b) → l2.Pairwise (fun a b => f a ≤ f b) →
    (∀ k : Int, l1.filter (fun a => decide (f a = k)) = l2.filter (fun a => decide (f a = k))) →
    l1 = l2 := by
  intro l1
  induction l1 with
  | nil =>
    intro l2 _ _ hf
    exact (filter_key_eq_nil_of_forall f l2 (fun k => (hf k).symm.trans (by simp))).symm
  | cons x t1 ih =>
    intro l2 h1 h2 hf
    cases l2 with
    | nil =>
      have := hf (f x)
      simp [List.filter_cons] at this
    | cons y t2 =>
      rcases List.pairwise_cons.1 h1 with ⟨hx, ht1⟩
      rcases List.pairwise_cons.1 h2 with ⟨hy, ht2⟩
      have hxy : f x ≤ f y := by
        have hmem : y ∈ (x :: t1).filter (fun a => decide (f a = f y)) := by
          rw [hf (f y)]; simp [List.filter_cons]
        rcases List.mem_cons.1 (List.mem_filter.1 hmem).1 with h | h
        · rw [h]
        · exact hx y h
      have hyx : f y ≤ f x := by
        have hmem : x ∈ (y :: t2).filter (fun a => decide (f a = f x)) := by
          rw [← hf (f x)]; simp [List.filter_cons]
        rcases List.mem_cons.1 (List.mem_filter.1 hmem).1 with h | h
        · rw [h]
        · exact hy x h
      have hkey : f y = f x := le_antisymm hyx hxy
      have hhead := hf (f x)
      simp only [List.filter_cons, hkey, decide_True, if_true] at hhead
      have hxeq : x = y := (List.cons.inj hhead).1
      have htail : ∀ k : Int, t1.filter (fun a => decide (f a = k)) =
          t2.filter (fun a => decide (f a = k)) := by
        intro k
        by_cases hk : f x = k
        · subst hk
          exact (List.cons.inj hhead).2
        · have hk2 : ¬ f y = k := by rw [hkey]; exact hk
          have := hf k
          simpa [List.filter_cons, hk, hk2] using this
      rw [hxeq, ih t2 ht1 ht2 htail]

/-- Every stable sort by the key returns what `SliceStable` returns. -/
theorem SliceStable_unique (l out : List α) (hsorted : out.Pairwise (fun a b => f a ≤ f b))
    (hstable : ∀ k : Int, out.filter (fun a => decide (f a = k)) =
      l.filter (fun a => decide (f a = k))) :
    out = SliceStable (fun a b => decide (f a < f b)) l :=
  stable_sorted_unique f out _ hsorted (SliceStable_sorted f l)
    (fun k => (hstable k).trans (SliceStable_stable f k l).symm)

end StableSort

/-! ## Properties of the repository operations -/

/-- C7. For every lead id, when the request is sent successfully and the response
is decoded into the record `r` (`read` returns nil, or `io.EOF` for an empty
body), `GetOne` returns the empty `Lead` with `ErrNoRecord` if `r.Id` is 0 and
returns `r` itself with a nil error if `r.Id` is not 0; so the error is
`ErrNoRecord` exactly when `r.Id` is 0. -/
theorem GetOne_result {ω : Type} (m : apiMethods ω) (leadId : Int) (with_ : Str) (s : St ω)
    (resp : Response) (w1 w2 : ω) (r : Lead) (err : Option Err)
    (hdo : m.do_ (leadEndPoint leadId) (lit "GET") (some [(lit "with", [with_])]) none none
      s.world = (Except.ok resp, w1))
    (hread : m.readLead resp Lead.zero w1 = ((r, err), w2))
    (herr : err = none ∨ err = some Err.EOF) :
    (leads.GetOne m leadId with_ s).1 =
        (if r.Id = 0 then (Lead.zero, some Err.ErrNoRecord) else (r, none)) ∧
    ((leads.GetOne m leadId with_ s).1.2 = some Err.ErrNoRecord ↔ r.Id = 0) ∧
    ((leads.GetOne m leadId with_ s).1 = (r, none) ↔ r.Id ≠ 0) := by
  have hq : Values.Set [] (lit "with") with_ = [(lit "with", [with_])] := rfl
  have hres : (leads.GetOne m leadId with_ s).1 =
      (if r.Id = 0 then (Lead.zero, some Err.ErrNoRecord) else (r, none)) := by
    rcases herr with h | h <;> subst h <;>
      simp only [leads.GetOne, api.do_, api.readLead, hq, hdo, hread] <;>
      by_cases h0 : r.Id = 0 <;> simp [h0]
  refine ⟨hres, ?_, ?_⟩
  · rw [hres]
    by_cases h0 : r.Id = 0 <;> simp [h0]
  · rw [hres]
    by_cases h0 : r.Id = 0 <;> simp [h0]

/-- C7 at concrete inputs: a response that decodes to lead 7 is returned as it is;
an empty body gives `ErrNoRecord`. -/
theorem GetOne_result_witness :
    (leads.GetOne (leadsMethods [demoLead 7 "deal"]) 7 (lit "contacts")
        { world := (), calls := [] }).1 = (demoLead 7 "deal", none) ∧
    (leads.GetOne emptyBodyMethods 7 (lit "contacts") { world := (), calls := [] }).1 =
      (Lead.zero, some Err.ErrNoRecord) :=
  ⟨(GetOne_result (leadsMethods [demoLead 7 "deal"]) 7 (lit "contacts")
      { world := (), calls := [] } { StatusCode := 200, Body := lit "..." } () ()
      (demoLead 7 "deal") none rfl rfl (Or.inl rfl)).1,
   (GetOne_result emptyBodyMethods 7 (lit "contacts")
      { world := (), calls := [] } { StatusCode := 200, Body := [] } () ()
      Lead.zero (some Err.EOF) rfl rfl (Or.inr rfl)).1⟩

/-- C8. For every page, when the request is sent successfully and the response is
decoded (`read` returns nil, or `io.EOF` for an empty body), `List` returns a
nil error and a list that is a permutation of the decoded leads, in ascending
order of `Id`, in which the leads of any one `Id` keep their response order;
and the list is the same for every page, world and call history that decode
to the same leads. -/
theorem List_sorted_stable {ω : Type} (m : apiMethods ω) (page : Int) (s : St ω)
    (resp : Response) (w1 w2 : ω) (res : LeadsRes) (err : Option Err)
    (hdo : m.do_ leadsEndpoint (lit "GET") (some [(lit "page", [fmtInt page])]) none none
      s.world = (Except.ok resp, w1))
    (hread : m.readLeads resp LeadsRes.zero w1 = ((res, err), w2))
    (herr : err = none ∨ err = some Err.EOF) :
    (leads.List m page s).1.2 = none ∧
    ((leads.List m page s).1.1).Perm res.Embedded.Leads ∧
    ((leads.List m page s).1.1).Pairwise (fun a b => a.Id ≤ b.Id) ∧
    (∀ k : Int, ((leads.List m page s).1.1).filter (fun a => decide (a.Id = k)) =
      res.Embedded.Leads.filter (fun a => decide (a.Id = k))) ∧
    (∀ (m' : apiMethods ω) (page' : Int) (s' : St ω) (resp' : Response) (v1 v2 : ω)
        (res' : LeadsRes) (err' : Option Err),
      m'.do_ leadsEndpoint (lit "GET") (some [(lit "page", [fmtInt page'])]) none none
        s'.world = (Except.ok resp', v1) →
      m'.readLeads resp' LeadsRes.zero v1 = ((res', err'), v2) →
      (err' = none ∨ err' = some Err.EOF) →
      res'.Embedded.Leads = res.Embedded.Leads →
      (leads.List m' page' s').1 = (leads.List m page s).1) := by
  have key : ∀ (m : apiMethods ω) (page : Int) (s : St ω) (resp : Response) (w1 w2 : ω)
      (res : LeadsRes) (err : Option Err),
      m.do_ leadsEndpoint (lit "GET") (some [(lit "page", [fmtInt page])]) none none
        s.world = (Except.ok resp, w1) →
      m.readLeads resp LeadsRes.zero w1 = ((res, err), w2) →
      (err = none ∨ err = some Err.EOF) →
      (leads.List m page s).1 =
        (SliceStable (fun a b => decide (a.Id < b.Id)) res.Embedded.Leads, none) := by
    intro m page s resp w1 w2 res err hdo hread herr
    have hq : Values.Set [] (lit "page") (Sprintf (lit "%d") [Arg.int page]) =
        [(lit "page", [fmtInt page])] := by
      rw [Sprintf_d]; rfl
    rcases herr with h | h <;> subst h <;>
      simp [leads.List, api.do_, api.readLeads, hq, hdo, hread]
  rw [key m page s resp w1 w2 res err hdo hread herr]
  refine ⟨rfl, SliceStable_perm _ _, SliceStable_sorted _ _, ?_, ?_⟩
  · intro k
    exact SliceStable_stable (fun a : Lead => a.Id) k _
  · intro m' page' s' resp' v1 v2 res' err' hdo' hread' herr' hsame
    rw [key m' page' s' resp' v1 v2 res' err' hdo' hread' herr', hsame]

/-- C8 at a concrete input: leads with ids 5, 2, 5, 1 come back as 1, 2, 5, 5 with
the two leads of id 5 in their response order. -/
theorem List_sorted_stable_witness :
    (leads.List (leadsMethods [demoLead 5 "a", demoLead 2 "b", demoLead 5 "c", demoLead 1 "d"]) 3
        { world := (), calls := [] }).1 =
      ([demoLead 1 "d", demoLead 2 "b", demoLead 5 "a", demoLead 5 "c"], none) ∧
    ((leads.List (leadsMethods [demoLead 5 "a", demoLead 2 "b", demoLead 5 "c", demoLead 1 "d"]) 3
        { world := (), calls := [] }).1.1).Pairwise (fun a b => a.Id ≤ b.Id) :=
  ⟨rfl,
   (List_sorted_stable (leadsMethods [demoLead 5 "a", demoLead 2 "b", demoLead 5 "c", demoLead 1 "d"])
      3 { world := (), calls := [] } { StatusCode := 200, Body := lit "..." } () ()
      { Embedded := { Leads := [demoLead 5 "a", demoLead 2 "b", demoLead 5 "c", demoLead 1 "d"] } }
      none rfl rfl (Or.inl rfl)).2.2.1⟩

/-- C9, the behaviour of the code on an empty response body: `Create` and `Update`
return `io.EOF` to the caller, while `List`, `GetOne` and `Pipelines.List`
suppress it (`List` and `Pipelines.List` return an empty list and a nil
error, `GetOne` returns `ErrNoRecord`). -/
theorem empty_body_results :
    (leads.Create emptyBodyMethods [demoLead 0 "new"] { world := (), calls := [] }).1 =
      ([], some Err.EOF) ∧
    (leads.Update emptyBodyMethods [demoLead 7 "deal"] { world := (), calls := [] }).1 =
      ([], some Err.EOF) ∧
    (leads.List emptyBodyMethods 1 { world := (), calls := [] }).1 = ([], none) ∧
    (pipelines.List emptyBodyMethods { world := (), calls := [] }).1 = ([], none) ∧
    (leads.GetOne emptyBodyMethods 7 (lit "contacts") { world := (), calls := [] }).1 =
      (Lead.zero, some Err.ErrNoRecord) :=
  ⟨rfl, rfl, rfl, rfl, rfl⟩

/-! ## Properties of `Lead.GetCustomField` -/

theorem loop_stringValue (sprintV : Iface → Str) (values : Iface) :
    (match values with
      | Iface.slice t => GetCustomField.firstValue sprintV t []
      | _ => []) = valueText sprintV values := by
  cases values with
  | slice t =>
    cases t with
    | nil => rfl
    | cons v vs => cases v <;> rfl
  | _ => rfl

theorem loop_first_match (sprintV : Iface → Str) (fieldName : Str) (field : FieldValues)
    (post : List FieldValues) (hf : field.named fieldName = true) :
    ∀ pre : List FieldValues, (∀ g ∈ pre, g.named fieldName = false) →
      GetCustomField.loop sprintV fieldName (pre ++ field :: post) =
        (valueText sprintV (field.index (lit "values")), true) := by
  intro pre
  induction pre with
  | nil =>
    intro _
    have hf' : (field.index (lit "field_name")).eqString fieldName = true := hf
    simp only [List.nil_append, GetCustomField.loop, hf', if_true, loop_stringValue]
  | cons g pre ih =>
    intro h
    have hg : (g.index (lit "field_name")).eqString fieldName = false :=
      h g (List.mem_cons_self _ _)
    simp only [List.cons_append, GetCustomField.loop, hg]
    exact ih (fun g' hg' => h g' (List.mem_cons_of_mem _ hg'))

theorem loop_no_match (sprintV : Iface → Str) (fieldName : Str) :
    ∀ fields : List FieldValues, (∀ g ∈ fields, g.named fieldName = false) →
      GetCustomField.loop sprintV fieldName fields = ([], false) := by
  intro fields
  induction fields with
  | nil => intro _; rfl
  | cons g fields ih =>
    intro h
    have hg : (g.index (lit "field_name")).eqString fieldName = false :=
      h g (List.mem_cons_self _ _)
    simp only [GetCustomField.loop, hg]
    exact ih (fun g' hg' => h g' (List.mem_cons_of_mem _ hg'))

theorem loop_found_iff (sprintV : Iface → Str) (fieldName : Str) :
    ∀ fields : List FieldValues,
      (GetCustomField.loop sprintV fieldName fields).2 = true ↔
        ∃ g ∈ fields, g.named fieldName = true := by
  intro fields
  induction fields with
  | nil => simp [GetCustomField.loop]
  | cons g fields ih =>
    by_cases hg : (g.index (lit "field_name")).eqString fieldName = true
    · simp only [GetCustomField.loop, hg, if_true, true_iff]
      exact ⟨g, List.mem_cons_self _ _, hg⟩
    · have hg' : (g.index (lit "field_name")).eqString fieldName = false := by
        simpa using hg
      have hstep : (GetCustomField.loop sprintV fieldName (g :: fields)).2 =
          (GetCustomField.loop sprintV fieldName fields).2 := by
        simp [GetCustomField.loop, hg']
      rw [hstep, ih]
      constructor
      · rintro ⟨x, hx, hn⟩
        exact ⟨x, List.mem_cons_of_mem _ hx, hn⟩
      · rintro ⟨x, hx, hn⟩
        rcases List.mem_cons.1 hx with hx | hx
        · subst hx
          exact absurd hn hg
        · exact ⟨x, hx, hn⟩

/-- C10. `GetCustomField` returns found=true exactly when some custom field is named
`fieldName`; the returned string is then the text of the first such field,
computed from the first element of its `values` list alone (its `value` entry
formatted as text, the empty string when `values` is not a list, is empty, or
its first element is not an object), whatever the later elements of `values`
and the fields after the first match are; when no field is so named it returns
the empty string and false. -/
theorem GetCustomField_first_match (sprintV : Iface → Str) (lead : Lead) (fieldName : Str) :
    ((lead.GetCustomField sprintV fieldName).2 = true ↔
      ∃ field ∈ lead.CustomFieldsValues, field.named fieldName = true) ∧
    (∀ (pre : List FieldValues) (field : FieldValues) (post : List FieldValues),
      lead.CustomFieldsValues = pre ++ field :: post →
      (∀ g ∈ pre, g.named fieldName = false) → field.named fieldName = true →
      lead.GetCustomField sprintV fieldName =
        (valueText sprintV (field.index (lit "values")), true)) ∧
    (∀ (v : Iface) (rest rest' : List Iface),
      valueText sprintV (Iface.slice (v :: rest)) = valueText sprintV (Iface.slice (v :: rest'))) ∧
    ((∀ g ∈ lead.CustomFieldsValues, g.named fieldName = false) →
      lead.GetCustomField sprintV fieldName = ([], false)) := by
  refine ⟨loop_found_iff sprintV fieldName _, ?_, ?_, loop_no_match sprintV fieldName _⟩
  · intro pre field post hfields hpre hfield
    unfold Lead.GetCustomField
    rw [hfields]
    exact loop_first_match sprintV fieldName field post hfield pre hpre
  · intro v rest rest'
    cases v <;> rfl

/-- C10 at a concrete input: of two fields named `City`, the first one decides, and
of its two values the first one. -/
theorem GetCustomField_first_match_witness :
    Lead.GetCustomField demoSprintV
      { demoLead 7 "deal" with CustomFieldsValues :=
          [demoField "Phone" [demoValue "555"],
           demoField "City" [demoValue "Riga", demoValue "Oslo"],
           demoField "City" [demoValue "Rome"]] }
      (lit "City") = (lit "Riga", true) :=
  (GetCustomField_first_match demoSprintV
      { demoLead 7 "deal" with CustomFieldsValues :=
          [demoField "Phone" [demoValue "555"],
           demoField "City" [demoValue "Riga", demoValue "Oslo"],
           demoField "City" [demoValue "Rome"]] }
      (lit "City")).2.1
    [demoField "Phone" [demoValue "555"]]
    (demoField "City" [demoValue "Riga", demoValue "Oslo"])
    [demoField "City" [demoValue "Rome"]]
    rfl (by decide) (by decide)

end Amocrm
